import Mathlib

/-!
Verification of the retrieval-to-validated-output pipeline of the AI-Friday
repository: a shallow embedding of `src/chunking.py`, `src/vectorstore.py`,
`src/prompt_library.py`, `src/schemas.py`, `src/agent.py` and `src/metrics.py`,
together with theorems about the embedded code.

External capabilities (the vector store's similarity search and the language
model's `generate`) are passed in as function arguments, mirroring the spec's
treatment of them as interfaces.  Python `float` scores and latencies are
modelled as rationals; wall-clock timing is not modelled (`latency_s` is 0).
-/

/-! ## JSON values

Python objects produced by `json.loads` (and consumed by `json.dumps`) are
modelled by `Json`: null, booleans, integers, strings, arrays and objects.
Objects are association lists; Python `dict` semantics (later duplicate keys
overwrite earlier ones) are recovered by the last-wins lookup `pyLookup`.
Python `float` payload values are outside the model. -/

inductive Json where
  | null : Json
  | bool : Bool → Json
  | num : Int → Json
  | str : String → Json
  | arr : List Json → Json
  | obj : List (String × Json) → Json

/-- Opening brace character, kept as a named constant. -/
def lbrace : Char := Char.ofNat 123

/-- Closing brace character, kept as a named constant. -/
def rbrace : Char := Char.ofNat 125

/-- Whitespace accepted around JSON tokens by a strict JSON decoder
(`json.loads`): space, tab, line feed, carriage return. -/
def isJsonWs (c : Char) : Bool :=
  c = ' ' || c = '\t' || c = '\n' || c = '\r'

/-- Whitespace stripped by Python's `str.strip()` (ASCII fragment):
the JSON whitespace plus vertical tab and form feed. -/
def isPyWs (c : Char) : Bool :=
  isJsonWs c || c = Char.ofNat 11 || c = Char.ofNat 12

/-- Decimal digit test on characters. -/
def isDigitChar (c : Char) : Bool :=
  48 ≤ c.toNat && c.toNat ≤ 57

/-- The decimal digit character for `n < 10`. -/
def digitChar : Nat → Char
  | 0 => '0' | 1 => '1' | 2 => '2' | 3 => '3' | 4 => '4'
  | 5 => '5' | 6 => '6' | 7 => '7' | 8 => '8' | 9 => '9'
  | _ => '?'

/-- Numeric value of a decimal digit character. -/
def dval (c : Char) : Nat := c.toNat - 48

/-- Lower-case hexadecimal digit character for `n < 16`. -/
def hexDigitChar : Nat → Char
  | 0 => '0' | 1 => '1' | 2 => '2' | 3 => '3' | 4 => '4'
  | 5 => '5' | 6 => '6' | 7 => '7' | 8 => '8' | 9 => '9'
  | 10 => 'a' | 11 => 'b' | 12 => 'c' | 13 => 'd' | 14 => 'e' | 15 => 'f'
  | _ => '?'

/-- Decimal digit characters of `n`, most significant first, prepended
to `acc`. -/
def natCharsGo (n : Nat) (acc : List Char) : List Char :=
  if _h : n < 10 then digitChar n :: acc
  else natCharsGo (n / 10) (digitChar (n % 10) :: acc)
termination_by n
decreasing_by exact Nat.div_lt_self (by omega) (by omega)

/-- Decimal representation of a natural number as characters. -/
def natChars (n : Nat) : List Char := natCharsGo n []

/-- Decimal representation of an integer as characters. -/
def intChars (n : Int) : List Char :=
  if n < 0 then '-' :: natChars n.natAbs else natChars n.toNat

/-- JSON string escaping of a single character, as a strict serializer
performs it: quote and backslash get a backslash escape, the common control
characters get their short escapes, remaining control characters get a
`\u00XX` escape, and every other character is emitted verbatim. -/
def escChar (c : Char) : List Char :=
  if c = '"' then ['\\', '"']
  else if c = '\\' then ['\\', '\\']
  else if c = '\n' then ['\\', 'n']
  else if c = '\t' then ['\\', 't']
  else if c = '\r' then ['\\', 'r']
  else if c = Char.ofNat 8 then ['\\', 'b']
  else if c = Char.ofNat 12 then ['\\', 'f']
  else if c.toNat < 32 then
    ['\\', 'u', '0', '0', hexDigitChar (c.toNat / 16), hexDigitChar (c.toNat % 16)]
  else [c]

/-- JSON string escaping of a character sequence. -/
def escString (s : List Char) : List Char := s.flatMap escChar

mutual
/-- Modelled from the spec: `generate_fenced_json`'s underlying JSON
serializer (Python's `json.dumps` with default separators), producing the
character sequence of a JSON document.  The serializer itself is not part of
the repository; the repository only contains the parsing side. -/
def dumpsChars : Json → List Char
  | .null => "null".data
  | .bool true => "true".data
  | .bool false => "false".data
  | .num n => intChars n
  | .str s => '"' :: (escString s.data ++ ['"'])
  | .arr [] => ['[', ']']
  | .arr (x :: xs) => '[' :: (dumpsChars x ++ dumpsItems xs ++ [']'])
  | .obj [] => [lbrace, rbrace]
  | .obj (kv :: kvs) => lbrace :: (dumpsKV kv ++ dumpsMembers kvs ++ [rbrace])

/-- Remaining array items, each preceded by the `", "` separator. -/
def dumpsItems : List Json → List Char
  | [] => []
  | x :: xs => ',' :: ' ' :: (dumpsChars x ++ dumpsItems xs)

/-- One object member: quoted escaped key, `": "`, then the value. -/
def dumpsKV : String × Json → List Char
  | (k, v) => '"' :: (escString k.data ++ '"' :: ':' :: ' ' :: dumpsChars v)

/-- Remaining object members, each preceded by the `", "` separator. -/
def dumpsMembers : List (String × Json) → List Char
  | [] => []
  | kv :: kvs => ',' :: ' ' :: (dumpsKV kv ++ dumpsMembers kvs)
end

/-- String form of the serializer (models `json.dumps`). -/
def dumpsStr (j : Json) : String := ⟨dumpsChars j⟩

/-! ## Strict JSON decoding

A model of Python's `json.loads` (strict mode) on the fragment the serializer
above produces: the full JSON grammar with integer numerals (no fraction or
exponent parts, which never arise from serializing the modelled values).
`parseVal` and friends are fuelled; `jsonLoads` supplies one unit of fuel per
input character plus one, which is always sufficient. -/

/-- Drop leading JSON whitespace. -/
def skipWs (cs : List Char) : List Char := cs.dropWhile isJsonWs

/-- Prefix test on character lists. -/
def startsWithChars : List Char → List Char → Bool
  | [], _ => true
  | _ :: _, [] => false
  | p :: ps, c :: cs => p = c && startsWithChars ps cs

/-- Value of a hexadecimal digit character, if it is one. -/
def parseHexDigit (c : Char) : Option Nat :=
  if isDigitChar c then some (c.toNat - 48)
  else if 97 ≤ c.toNat && c.toNat ≤ 102 then some (c.toNat - 87)
  else if 65 ≤ c.toNat && c.toNat ≤ 70 then some (c.toNat - 55)
  else none

/-- Parse the body of a JSON string after the opening quote: returns the
decoded characters and the input remaining after the closing quote.  Raw
control characters are rejected, as in strict `json.loads`. -/
def parseStringBody : List Char → Option (List Char × List Char)
  | [] => none
  | c :: cs =>
    if c = '"' then some ([], cs)
    else if c = '\\' then
      match cs with
      | [] => none
      | e :: cs' =>
        if e = '"' then (parseStringBody cs').map (fun p => ('"' :: p.1, p.2))
        else if e = '\\' then (parseStringBody cs').map (fun p => ('\\' :: p.1, p.2))
        else if e = '/' then (parseStringBody cs').map (fun p => ('/' :: p.1, p.2))
        else if e = 'b' then (parseStringBody cs').map (fun p => (Char.ofNat 8 :: p.1, p.2))
        else if e = 'f' then (parseStringBody cs').map (fun p => (Char.ofNat 12 :: p.1, p.2))
        else if e = 'n' then (parseStringBody cs').map (fun p => ('\n' :: p.1, p.2))
        else if e = 'r' then (parseStringBody cs').map (fun p => ('\r' :: p.1, p.2))
        else if e = 't' then (parseStringBody cs').map (fun p => ('\t' :: p.1, p.2))
        else if e = 'u' then
          match cs' with
          | h1 :: h2 :: h3 :: h4 :: cs'' =>
            match parseHexDigit h1, parseHexDigit h2, parseHexDigit h3, parseHexDigit h4 with
            | some a, some b, some c3, some d =>
              (parseStringBody cs'').map
                (fun p => (Char.ofNat (4096 * a + 256 * b + 16 * c3 + d) :: p.1, p.2))
            | _, _, _, _ => none
          | _ => none
        else none
    else if c.toNat < 32 then none
    else (parseStringBody cs).map (fun p => (c :: p.1, p.2))

/-- Consume a maximal run of decimal digits, most significant first,
accumulating into `acc`. -/
def parseDigits : List Char → Nat → Nat × List Char
  | [], acc => (acc, [])
  | c :: cs, acc =>
    if isDigitChar c then parseDigits cs (10 * acc + dval c)
    else (acc, c :: cs)

mutual
/-- Parse one JSON value (integer-numeral fragment), returning the value and
the remaining input.  Leading whitespace is skipped. -/
def parseVal : Nat → List Char → Option (Json × List Char)
  | 0, _ => none
  | fuel + 1, cs =>
    match skipWs cs with
    | [] => none
    | c :: rest =>
      if c = 'n' then
        match rest with
        | 'u' :: 'l' :: 'l' :: r => some (.null, r)
        | _ => none
      else if c = 't' then
        match rest with
        | 'r' :: 'u' :: 'e' :: r => some (.bool true, r)
        | _ => none
      else if c = 'f' then
        match rest with
        | 'a' :: 'l' :: 's' :: 'e' :: r => some (.bool false, r)
        | _ => none
      else if c = '"' then (parseStringBody rest).map (fun p => (.str ⟨p.1⟩, p.2))
      else if c = '[' then
        match skipWs rest with
        | [] => none
        | d :: rest' =>
          if d = ']' then some (.arr [], rest')
          else (parseItems fuel (d :: rest')).map (fun p => (.arr p.1, p.2))
      else if c = lbrace then
        match skipWs rest with
        | [] => none
        | d :: rest' =>
          if d = rbrace then some (.obj [], rest')
          else (parseMembers fuel (d :: rest')).map (fun p => (.obj p.1, p.2))
      else if c = '-' then
        match rest with
        | d :: _ =>
          if isDigitChar d then
            let p := parseDigits rest 0
            some (.num (-(p.1 : Int)), p.2)
          else none
        | [] => none
      else if isDigitChar c then
        let p := parseDigits (c :: rest) 0
        some (.num (p.1 : Int), p.2)
      else none

/-- Parse the non-empty item list of an array, consuming the closing
bracket. -/
def parseItems : Nat → List Char → Option (List Json × List Char)
  | 0, _ => none
  | fuel + 1, cs => do
    let (v, rest) ← parseVal fuel cs
    match skipWs rest with
    | [] => none
    | d :: rest' =>
      if d = ',' then do
        let (vs, rest'') ← parseItems fuel rest'
        pure (v :: vs, rest'')
      else if d = ']' then pure ([v], rest')
      else none

/-- Parse the non-empty member list of an object, consuming the closing
brace. -/
def parseMembers : Nat → List Char → Option (List (String × Json) × List Char)
  | 0, _ => none
  | fuel + 1, cs =>
    match skipWs cs with
    | [] => none
    | c :: rest =>
      if c = '"' then do
        let (k, rest1) ← parseStringBody rest
        match skipWs rest1 with
        | [] => none
        | d :: rest2 =>
          if d = ':' then do
            let (v, rest3) ← parseVal fuel rest2
            match skipWs rest3 with
            | [] => none
            | d2 :: rest4 =>
              if d2 = ',' then do
                let (kvs, rest5) ← parseMembers fuel rest4
                pure ((⟨k⟩, v) :: kvs, rest5)
              else if d2 = rbrace then pure ([((⟨k⟩ : String), v)], rest4)
              else none
          else none
      else none
end

/-- Model of strict `json.loads`: parse one value and require only whitespace
to remain. -/
def jsonLoads (cs : List Char) : Option Json :=
  match parseVal (cs.length + 1) cs with
  | some (j, rest) => if skipWs rest = [] then some j else none
  | none => none

/-! ## Round-trip groundwork: digits, whitespace, strings -/

/-- The input does not begin with a decimal digit (so a preceding numeral
cannot absorb it). -/
def headNotDigit : List Char → Bool
  | [] => true
  | c :: _ => !isDigitChar c

/-- One step of decimal accumulation. -/
def digitStep (a : Nat) (c : Char) : Nat := 10 * a + dval c

/-! ## Parser stepping and whitespace insensitivity -/

/-- Body of `parseVal` after the initial whitespace skip (definitional
alias used to state stepping lemmas). -/
def pvAfterWs (fuel : Nat) : List Char → Option (Json × List Char)
  | [] => none
  | c :: rest =>
    if c = 'n' then
      match rest with
      | 'u' :: 'l' :: 'l' :: r => some (.null, r)
      | _ => none
    else if c = 't' then
      match rest with
      | 'r' :: 'u' :: 'e' :: r => some (.bool true, r)
      | _ => none
    else if c = 'f' then
      match rest with
      | 'a' :: 'l' :: 's' :: 'e' :: r => some (.bool false, r)
      | _ => none
    else if c = '"' then (parseStringBody rest).map (fun p => (.str ⟨p.1⟩, p.2))
    else if c = '[' then
      match skipWs rest with
      | [] => none
      | d :: rest' =>
        if d = ']' then some (.arr [], rest')
        else (parseItems fuel (d :: rest')).map (fun p => (.arr p.1, p.2))
    else if c = lbrace then
      match skipWs rest with
      | [] => none
      | d :: rest' =>
        if d = rbrace then some (.obj [], rest')
        else (parseMembers fuel (d :: rest')).map (fun p => (.obj p.1, p.2))
    else if c = '-' then
      match rest with
      | d :: _ =>
        if isDigitChar d then
          let p := parseDigits rest 0
          some (.num (-(p.1 : Int)), p.2)
        else none
      | [] => none
    else if isDigitChar c then
      let p := parseDigits (c :: rest) 0
      some (.num (p.1 : Int), p.2)
    else none

/-- Body of `parseMembers` after the initial whitespace skip (definitional
alias). -/
def pmAfterWs (fuel : Nat) : List Char → Option (List (String × Json) × List Char)
  | [] => none
  | c :: rest =>
    if c = '"' then do
      let (k, rest1) ← parseStringBody rest
      match skipWs rest1 with
      | [] => none
      | d :: rest2 =>
        if d = ':' then do
          let (v, rest3) ← parseVal fuel rest2
          match skipWs rest3 with
          | [] => none
          | d2 :: rest4 =>
            if d2 = ',' then do
              let (kvs, rest5) ← parseMembers fuel rest4
              pure ((⟨k⟩, v) :: kvs, rest5)
            else if d2 = rbrace then pure ([((⟨k⟩ : String), v)], rest4)
            else none
        else none
    else none

mutual
/-- Fuel sufficient for `parseVal` to parse the serialization of `j`. -/
def fuelNeed : Json → Nat
  | .arr xs => 1 + fuelNeedItems xs
  | .obj kvs => 1 + fuelNeedMembers kvs
  | _ => 1

/-- Fuel sufficient for the `parseItems` chain over serialized items. -/
def fuelNeedItems : List Json → Nat
  | [] => 0
  | x :: xs => 1 + fuelNeed x + fuelNeedItems xs

/-- Fuel sufficient for the `parseMembers` chain over serialized members. -/
def fuelNeedMembers : List (String × Json) → Nat
  | [] => 0
  | kv :: kvs => 1 + fuelNeed kv.2 + fuelNeedMembers kvs
end
/-! ## The response parser of `RAGAgent` (src/agent.py)

`run_rag` and `run_direct` extract a JSON payload from the model response by
stripping surrounding whitespace, slicing off a leading/trailing code fence
(`json_str[7:-3]` after a ```json prefix, `json_str[3:-3]` after a plain ```
prefix), and strict JSON decoding. -/

/-- Python `str.strip()` on a character sequence. -/
def pyStrip (cs : List Char) : List Char :=
  ((cs.dropWhile isPyWs).reverse.dropWhile isPyWs).reverse

/-- The fence-stripping step of the response parser, as in `agent.py`:
strip, then slice off `7`/`-3` or `3`/`-3` when a fence marker leads. -/
def extract_json_str (cs : List Char) : List Char :=
  let t := pyStrip cs
  if startsWithChars ("```json".data) t then (t.take (t.length - 3)).drop 7
  else if startsWithChars ("```".data) t then (t.take (t.length - 3)).drop 3
  else t

/-- The complete response-parsing step: strip, fence-strip, strict decode. -/
def parse_llm_chars (cs : List Char) : Option Json :=
  jsonLoads (extract_json_str cs)

/-! ## Schema registry and validator (src/schemas.py)

Each pydantic output model is embedded as a list of field specifications:
field name, whether the field is required (no default), and a check on the
value when the field is present.  Pydantic's default `extra='ignore'`
behaviour means undeclared payload fields are ignored.  Payloads are the
parsed JSON objects; Python `dict` lookup is last-binding-wins. -/

/-- One declared model field: name, required flag, and the value check. -/
structure FieldSpec where
  name : String
  required : Bool
  check : Json → Bool

/-- Python `dict` lookup on an association list built by repeated insertion:
a later binding of the same key overwrites an earlier one. -/
def pyLookup (kvs : List (String × Json)) (k : String) : Option Json :=
  match kvs with
  | [] => none
  | (k', v) :: rest =>
    match pyLookup rest k with
    | some r => some r
    | none => if k' = k then some v else none

/-- Check one field spec against a payload object. -/
def checkField (kvs : List (String × Json)) (sp : FieldSpec) : Bool :=
  match pyLookup kvs sp.name with
  | some v => sp.check v
  | none => !sp.required

/-- Check a whole model against a payload object: every declared field that
is present must pass its check and every required field must be present;
extra fields are ignored. -/
def validateFields (specs : List FieldSpec) (kvs : List (String × Json)) : Bool :=
  specs.all (checkField kvs)

/-- Value check: a string. -/
def isStr : Json → Bool
  | .str _ => true
  | _ => false

/-- Value check: a string drawn from an allowed set (pydantic
`pattern="^(a|b|c)$"`). -/
def isEnum (vals : List String) : Json → Bool
  | .str s => vals.contains s
  | _ => false

/-- Value check: `Optional[str]` — null or a string. -/
def isOptStr : Json → Bool
  | .null => true
  | .str _ => true
  | _ => false

/-- Value check: a number (`float`; integers coerce). -/
def isNum : Json → Bool
  | .num _ => true
  | _ => false

/-- Value check: an integer. -/
def isInt : Json → Bool
  | .num _ => true
  | _ => false

/-- Value check: a list whose elements all pass `chk`. -/
def isListOf (chk : Json → Bool) : Json → Bool
  | .arr xs => xs.all chk
  | _ => false

/-- Value check: a string-keyed mapping whose values all pass `chk`. -/
def isDictOf (chk : Json → Bool) : Json → Bool
  | .obj kvs => kvs.all (fun kv => chk kv.2)
  | _ => false

/-- Value check: a nested model (a dict validating against `specs`). -/
def isObjOf (specs : List FieldSpec) : Json → Bool
  | .obj kvs => validateFields specs kvs
  | _ => false

/-- The `high|medium|low` enumeration used by several fields. -/
def hmlEnum : List String := ["high", "medium", "low"]

/-- Fields of the `Entity` model. -/
def Entity_fields : List FieldSpec :=
  [⟨"value", true, isStr⟩,
   ⟨"type", true, isStr⟩,
   ⟨"confidence", true, isEnum hmlEnum⟩,
   ⟨"source_snippet", false, isOptStr⟩]

/-- Fields of `GenericExtractionOutput`. -/
def GenericExtractionOutput_fields : List FieldSpec :=
  [⟨"entities", true, isListOf (isObjOf Entity_fields)⟩,
   ⟨"extraction_summary", true, isStr⟩,
   ⟨"notes", false, isOptStr⟩]

/-- Fields of `ClassificationOutput`. -/
def ClassificationOutput_fields : List FieldSpec :=
  [⟨"primary_category", true, isStr⟩,
   ⟨"confidence_primary", true, isEnum hmlEnum⟩,
   ⟨"secondary_categories", false, isListOf isStr⟩,
   ⟨"confidence_scores", true, isDictOf isNum⟩,
   ⟨"reasoning", true, isStr⟩,
   ⟨"uncertainty_notes", false, isOptStr⟩]

/-- Fields of `QnAOutput`. -/
def QnAOutput_fields : List FieldSpec :=
  [⟨"answer", true, isStr⟩,
   ⟨"confidence", true, isEnum hmlEnum⟩,
   ⟨"source_evidence", false, isListOf isStr⟩,
   ⟨"source_documents", false, isListOf isStr⟩,
   ⟨"answer_type", true, isEnum ["direct", "inferred", "insufficient_context"]⟩,
   ⟨"follow_up_questions", false, isListOf isStr⟩,
   ⟨"limitations", false, isOptStr⟩]

/-- Fields of `SummarizationOutput`. -/
def SummarizationOutput_fields : List FieldSpec :=
  [⟨"summary", true, isStr⟩,
   ⟨"key_points", true, isListOf isStr⟩,
   ⟨"entities_mentioned", false, isListOf isStr⟩,
   ⟨"topics", false, isListOf isStr⟩,
   ⟨"tone", true, isEnum ["formal", "informal", "neutral"]⟩,
   ⟨"compression_ratio", true, isNum⟩,
   ⟨"completeness", true, isEnum hmlEnum⟩]

/-- Fields of `ActionStep`. -/
def ActionStep_fields : List FieldSpec :=
  [⟨"step_number", true, isInt⟩,
   ⟨"action", true, isStr⟩,
   ⟨"details", true, isStr⟩,
   ⟨"time_estimate", true, isStr⟩,
   ⟨"dependencies", false, isListOf isInt⟩,
   ⟨"success_criteria", true, isStr⟩]

/-- Fields of `ActionPlanOutput`. -/
def ActionPlanOutput_fields : List FieldSpec :=
  [⟨"objective", true, isStr⟩,
   ⟨"steps", true, isListOf (isObjOf ActionStep_fields)⟩,
   ⟨"total_duration", true, isStr⟩,
   ⟨"risks", false, isListOf isStr⟩,
   ⟨"success_rate", true, isEnum hmlEnum⟩]

/-- Fields of `RAGOutput`. -/
def RAGOutput_fields : List FieldSpec :=
  [⟨"answer", true, isStr⟩,
   ⟨"confidence", true, isEnum hmlEnum⟩,
   ⟨"evidence_used", false, isListOf isStr⟩,
   ⟨"context_coverage", true, isEnum hmlEnum⟩,
   ⟨"answer_status", true, isEnum ["answered", "partial", "unable_to_answer"]⟩]

/-- The schema registry `SCHEMA_MODELS`, in source order. -/
def SCHEMA_MODELS : List (String × List FieldSpec) :=
  [("generic_extraction", GenericExtractionOutput_fields),
   ("classification", ClassificationOutput_fields),
   ("qna", QnAOutput_fields),
   ("summarization", SummarizationOutput_fields),
   ("action_plan", ActionPlanOutput_fields),
   ("rag", RAGOutput_fields)]

/-- The registered schema names. -/
def SCHEMA_NAMES : List String := SCHEMA_MODELS.map (·.1)

/-- Association-list lookup (first match); `SCHEMA_MODELS` has distinct keys
so this coincides with Python dict lookup on it. -/
def lookupSpecs (s : String) : Option (List FieldSpec) :=
  match SCHEMA_MODELS.find? (fun kv => kv.1 = s) with
  | some kv => some kv.2
  | none => none

/-- `validate_output` from `src/schemas.py`: unknown schema names return
`false`; construction of the pydantic model from a non-dict payload raises
inside the `try` and also returns `false`; otherwise the field checks
decide.  Total — every exception is caught. -/
def validate_output (output_dict : Json) (schema_type : String) : Bool :=
  match lookupSpecs schema_type with
  | none => false
  | some specs =>
    match output_dict with
    | .obj kvs => validateFields specs kvs
    | _ => false

/-! ## Prompt library (src/prompt_library.py)

Template bodies are long instruction prose; they are embedded here in
abridged form since no claim depends on the prose, only on which names are
registered, on the literal `QUERY`/`INPUT` suffixes appended by the agent,
and on the fact that the rag template's placeholder renders (through the
Python f-string) as single-braced text while the agent's `replace` searches
for a double-braced literal.  `\x7b`/`\x7d` denote the brace characters. -/

/-- Core prompting principles prepended to all templates (abridged). -/
def best_practices_header : String :=
  "You are a precise, domain-aware assistant. Return ONLY valid JSON.\n"

/-- Template for entity/fact extraction tasks (abridged). -/
def schema_generic_extraction : String :=
  best_practices_header ++
  "\nTASK: Extract structured entities/facts from the provided text.\n"

/-- Template for sentiment/category classification (abridged). -/
def schema_classification : String :=
  best_practices_header ++
  "\nTASK: Classify input text into one or more predefined categories.\n"

/-- Template for question answering with context (abridged). -/
def schema_qna : String :=
  best_practices_header ++
  "\nTASK: Answer a specific question using the provided context strictly.\n"

/-- Template for text summarization (abridged). -/
def schema_summarization : String :=
  best_practices_header ++
  "\nTASK: Create a concise summary capturing key information.\n"

/-- Template for generating step-by-step procedures (abridged). -/
def schema_action_plan : String :=
  best_practices_header ++
  "\nTASK: Generate a structured action plan with clear steps.\n"

/-- Template for RAG with context injection (abridged).  The f-string in the
source renders its doubled braces to single braces, so the template contains
the literal text `\x7bcontext\x7d` (single-braced). -/
def rag_prompt : String :=
  best_practices_header ++
  "\nTASK: Answer the user\x27s query using the provided context strictly.\n\nCONTEXT:\n\x7bcontext\x7d\n\nSCHEMA (Return ONLY valid JSON)\n"

/-- The template registry of `get_prompt_template`, in source order. -/
def prompt_templates : List (String × String) :=
  [("generic_extraction", schema_generic_extraction),
   ("classification", schema_classification),
   ("qna", schema_qna),
   ("summarization", schema_summarization),
   ("action_plan", schema_action_plan),
   ("rag", rag_prompt)]

/-- Single-quote character as a string (used by the Python list repr). -/
def sglQuote : String := "\x27"

/-- Python `repr` of the available-template key list, as interpolated into
the unknown-schema error message. -/
def availableRepr : String :=
  "[" ++ String.intercalate ", " (prompt_templates.map (fun kv => sglQuote ++ kv.1 ++ sglQuote)) ++ "]"

/-- The `ValueError` message raised for an unknown schema name. -/
def unknownSchemaMsg (schema_type : String) : String :=
  "Unknown schema type: " ++ schema_type ++ ". Available: " ++ availableRepr

/-- `get_prompt_template` from `src/prompt_library.py`: returns the template
for a registered name and raises `ValueError` (modelled as `Except.error`
with the exact message) for an unknown one. -/
def get_prompt_template (schema_type : String) : Except String String :=
  match prompt_templates.find? (fun kv => kv.1 = schema_type) with
  | some kv => .ok kv.2
  | none => .error (unknownSchemaMsg schema_type)

/-! ## Retrieval (src/vectorstore.py) and configuration (src/config.py) -/

/-- Default retrieval depth (`RETRIEVAL_TOP_K`). -/
def RETRIEVAL_TOP_K : Nat := 5

/-- Default minimum relevance threshold (`MIN_SIMILARITY_SCORE`); defined in
the configuration but read by no other module. -/
def MIN_SIMILARITY_SCORE : ℚ := 3 / 10

/-- One `(content, metadata, score)` result of the external vector-store
capability's `similarity_search_with_score`; the metadata dict is modelled
by its optional `source` entry. -/
structure SearchHit where
  content : String
  source? : Option String
  score : ℚ

/-- One retrieved-document dict `{'content', 'metadata', 'score'}` built by
`retrieve_documents`. -/
structure RetrievedDoc where
  content : String
  source? : Option String
  score : ℚ

/-- `retrieve_documents` from `src/vectorstore.py`: delegate to the
capability (a function of query and `k`, which may raise) and map each hit
to the result dict; an exception is absorbed into the empty list. -/
def retrieve_documents (vectorstore : String → Nat → Except Unit (List SearchHit))
    (query : String) (k : Nat) : List RetrievedDoc :=
  match vectorstore query k with
  | .ok results => results.map (fun h => ⟨h.content, h.source?, h.score⟩)
  | .error _ => []

/-! ## Pipeline orchestrator (src/agent.py) -/

/-- One entry of `context_used`: preview-truncated content, source name, and
score. -/
structure CtxEntry where
  content : String
  source : String
  score : ℚ

/-- The result dict built by `RAGAgent.run_rag`.  Wall-clock timing is not
modelled, so `latency_s` is always 0. -/
structure ResultRecord where
  query : String
  schema_type : String
  mode : String
  result : Option Json
  context_used : List CtxEntry
  valid_output : Bool
  latency_s : ℚ
  error : Option String

/-- The result dict built by `RAGAgent.run_direct` (it has no
`context_used` key). -/
structure DirectResultRecord where
  query : String
  schema_type : String
  mode : String
  result : Option Json
  valid_output : Bool
  latency_s : ℚ
  error : Option String

/-- Python `str.replace`: replace every non-overlapping occurrence of `pat`
(left to right) by `rep`. -/
def replaceAllChars (s pat rep : List Char) : List Char :=
  match s with
  | [] => []
  | c :: cs =>
    if h : pat ≠ [] ∧ startsWithChars pat (c :: cs) = true then
      rep ++ replaceAllChars ((c :: cs).drop pat.length) pat rep
    else c :: replaceAllChars cs pat rep
termination_by s.length
decreasing_by
  · obtain ⟨hp, _⟩ := h
    cases pat with
    | nil => exact absurd rfl hp
    | cons p ps =>
      simp only [List.length_drop, List.length_cons]
      omega
  · simp

/-- String wrapper for `replaceAllChars`. -/
def pyReplace (s pat rep : String) : String := ⟨replaceAllChars s.data pat.data rep.data⟩

/-- The literal double-braced search string of the agent's `replace` call,
written with `\x7b`/`\x7d` escapes. -/
def contextTarget : String := "\x7b\x7bcontext\x7d\x7d"

/-- The generation/parse/validate tail of `RAGAgent.run_rag`: fold the
generation outcome and the parse/validate steps into the result record. -/
def finish_rag (query schema_type mode : String) (context_used : List CtxEntry)
    (llmResult : Except String String) : ResultRecord :=
  match llmResult with
  | .error e => ⟨query, schema_type, mode, none, context_used, false, 0, some e⟩
  | .ok response_text =>
    match parse_llm_chars response_text.data with
    | some payload =>
      ⟨query, schema_type, mode, some payload, context_used,
        validate_output payload schema_type, 0, none⟩
    | none =>
      ⟨query, schema_type, mode, none, context_used, false, 0,
        some "Failed to parse JSON from LLM response"⟩

/-- `RAGAgent.run_rag` from `src/agent.py`.  The vector store and the
language model are explicit capability arguments; raising is modelled by
`Except.error`, and the enclosing `try/except` of the source is reflected in
how each failure is folded into the returned record. -/
def run_rag (vectorstore : Option (String → Nat → Except Unit (List SearchHit)))
    (llm : String → Except String String) (query : String) (schema_type : String)
    (use_rag : Bool) (num_context : Nat) : ResultRecord :=
  let mode := if use_rag then "rag" else "direct"
  let (context_docs, context_used) : List RetrievedDoc × List CtxEntry :=
    match use_rag, vectorstore with
    | true, some vs =>
      let docs := retrieve_documents vs query num_context
      (docs, docs.map (fun d =>
        (⟨d.content.take 200, d.source?.getD "unknown", d.score⟩ : CtxEntry)))
    | _, _ => ([], [])
  let context_text := String.intercalate "\n" (context_docs.map (·.content))
  match get_prompt_template schema_type with
  | .error e => ⟨query, schema_type, mode, none, context_used, false, 0, some e⟩
  | .ok prompt_template =>
    let full_prompt :=
      if use_rag && (context_text != "") then
        pyReplace prompt_template contextTarget context_text ++ "\n\nQUERY: " ++ query
      else prompt_template ++ "\n\nQUERY: " ++ query
    finish_rag query schema_type mode context_used (llm full_prompt)

/-- The generation/parse/validate tail of `RAGAgent.run_direct`. -/
def finish_direct (query schema_type : String)
    (llmResult : Except String String) : DirectResultRecord :=
  match llmResult with
  | .error e => ⟨query, schema_type, "direct", none, false, 0, some e⟩
  | .ok response_text =>
    match parse_llm_chars response_text.data with
    | some payload =>
      ⟨query, schema_type, "direct", some payload,
        validate_output payload schema_type, 0, none⟩
    | none => ⟨query, schema_type, "direct", none, false, 0,
        some "Failed to parse JSON"⟩

/-- `RAGAgent.run_direct` from `src/agent.py`.  `input_data or
\x7b'text': query\x7d` treats both a missing and an empty dict as falsy. -/
def run_direct (llm : String → Except String String) (query : String)
    (schema_type : String) (input_data : Option Json) : DirectResultRecord :=
  let data :=
    match input_data with
    | none => Json.obj [("text", .str query)]
    | some (.obj []) => Json.obj [("text", .str query)]
    | some d => d
  match get_prompt_template schema_type with
  | .error e => ⟨query, schema_type, "direct", none, false, 0, some e⟩
  | .ok prompt_template =>
    let full_prompt := prompt_template ++ "\n\nINPUT: " ++ dumpsStr data
    finish_direct query schema_type (llm full_prompt)

/-! ## Chunker (src/chunking.py)

The text splitter itself is the external `RecursiveCharacterTextSplitter`;
`chunk_documents` is the repository's code around it: it enumerates each
document's pieces and attaches deterministic ids and indices. -/

/-- A raw document dict; `.get` defaults are modelled by optional fields. -/
structure RawDoc where
  id? : Option String
  source? : Option String
  content? : Option String

/-- One chunk dict produced by `chunk_documents`. -/
structure Chunk where
  id : String
  source : String
  content : String
  chunk_index : Nat

/-- `chunk_documents` from `src/chunking.py`, with the splitter passed in as
the external capability. -/
def chunk_documents (splitter : String → List String) (documents : List RawDoc) :
    List Chunk :=
  documents.flatMap (fun doc =>
    ((splitter (doc.content?.getD "")).enum).map (fun ic =>
      (⟨(doc.id?.getD "unknown") ++ "_" ++ toString ic.1,
        doc.source?.getD "unknown", ic.2, ic.1⟩ : Chunk)))

/-! ## Metrics aggregator (src/metrics.py) -/

/-- The latency statistics dict. -/
structure LatencyStats where
  min : ℚ
  max : ℚ
  mean : ℚ
  median : ℚ

/-- `schema_pass_rate` from `src/metrics.py`. -/
def schema_pass_rate (results : List ResultRecord) : ℚ :=
  if results.isEmpty then 0
  else ((results.countP (·.valid_output) : ℚ) / (results.length : ℚ)) * 100

/-- `latency_stats` from `src/metrics.py`: numpy min/max/mean/median over
the latency column, with the all-zero dict on empty input. -/
def latency_stats (results : List ResultRecord) : LatencyStats :=
  let latencies := results.map (·.latency_s)
  if latencies.isEmpty then ⟨0, 0, 0, 0⟩
  else
    let sorted := latencies.insertionSort (· ≤ ·)
    let n := latencies.length
    let mn := latencies.foldl min (latencies.headD 0)
    let mx := latencies.foldl max (latencies.headD 0)
    let mean := latencies.sum / (n : ℚ)
    let median :=
      if n % 2 = 1 then sorted.getD (n / 2) 0
      else (sorted.getD (n / 2 - 1) 0 + sorted.getD (n / 2) 0) / 2
    ⟨mn, mx, mean, median⟩

/-- Field names declared by a registered schema. -/
def schemaFieldNames (s : String) : List String :=
  match lookupSpecs s with
  | some specs => specs.map (·.name)
  | none => []

/-! ## Claim theorems -/

/-- A capability returning two hits, one of them below the configured
minimum relevance threshold, used to exercise `retrieve_documents`. -/
def c1Store : String → Nat → Except Unit (List SearchHit) :=
  fun _ _ => .ok [⟨"low", none, 0⟩, ⟨"hi", none, 1⟩]

/-- A vector-store capability that always raises. -/
def failingStore : String → Nat → Except Unit (List SearchHit) :=
  fun _ _ => .error ()

/-- A vector-store capability that succeeds with no results. -/
def emptyStore : String → Nat → Except Unit (List SearchHit) :=
  fun _ _ => .ok []

/-- A payload validating against the `rag` schema (the spec's example). -/
def ragPayload : List (String × Json) :=
  [("answer", .str "x"), ("confidence", .str "high"), ("evidence_used", .arr []),
   ("context_coverage", .str "high"), ("answer_status", .str "answered")]


/-! ## Theorems -/
theorem dval_digitChar : ∀ d, d < 10 → dval (digitChar d) = d := by decide

theorem isDigit_digitChar : ∀ d, d < 10 → isDigitChar (digitChar d) = true := by decide

theorem natCharsGo_unfold (n : Nat) (acc : List Char) :
    natCharsGo n acc =
      if n < 10 then digitChar n :: acc
      else natCharsGo (n / 10) (digitChar (n % 10) :: acc) := by
  rw [natCharsGo]
  simp

theorem natCharsGo_append (n : Nat) (acc : List Char) :
    natCharsGo n acc = natCharsGo n [] ++ acc := by
  induction n using Nat.strong_induction_on generalizing acc with
  | _ n ih =>
    by_cases h : n < 10
    · conv_lhs => rw [natCharsGo_unfold]
      conv_rhs => rw [natCharsGo_unfold]
      simp [h]
    · have h10 : n / 10 < n := Nat.div_lt_self (by omega) (by omega)
      conv_lhs => rw [natCharsGo_unfold]
      conv_rhs => rw [natCharsGo_unfold]
      simp only [if_neg h]
      rw [ih (n / 10) h10 (digitChar (n % 10) :: acc),
        ih (n / 10) h10 [digitChar (n % 10)]]
      simp

theorem natChars_low {n : Nat} (h : n < 10) : natChars n = [digitChar n] := by
  rw [natChars, natCharsGo_unfold]
  simp [h]

theorem natChars_high {n : Nat} (h : ¬ n < 10) :
    natChars n = natChars (n / 10) ++ [digitChar (n % 10)] := by
  rw [natChars, natCharsGo_unfold]
  simp only [if_neg h]
  rw [natCharsGo_append]
  rfl

theorem natChars_all_digits (n : Nat) : ∀ c ∈ natChars n, isDigitChar c = true := by
  induction n using Nat.strong_induction_on with
  | _ n ih =>
    by_cases h : n < 10
    · rw [natChars_low h]
      intro c hc
      simp at hc
      subst hc
      exact isDigit_digitChar n h
    · rw [natChars_high h]
      intro c hc
      rcases List.mem_append.1 hc with h1 | h1
      · exact ih (n / 10) (Nat.div_lt_self (by omega) (by omega)) c h1
      · simp at h1
        subst h1
        exact isDigit_digitChar _ (Nat.mod_lt _ (by omega))

theorem natChars_head (n : Nat) :
    ∃ d t, natChars n = d :: t ∧ isDigitChar d = true := by
  induction n using Nat.strong_induction_on with
  | _ n ih =>
    by_cases h : n < 10
    · exact ⟨digitChar n, [], natChars_low h, isDigit_digitChar n h⟩
    · obtain ⟨d, t, ht, hd⟩ := ih (n / 10) (Nat.div_lt_self (by omega) (by omega))
      exact ⟨d, t ++ [digitChar (n % 10)], by rw [natChars_high h, ht]; rfl, hd⟩

theorem natChars_last (n : Nat) :
    ∃ t d, natChars n = t ++ [d] ∧ isDigitChar d = true := by
  by_cases h : n < 10
  · exact ⟨[], digitChar n, natChars_low h, isDigit_digitChar n h⟩
  · exact ⟨natChars (n / 10), digitChar (n % 10), natChars_high h,
      isDigit_digitChar _ (Nat.mod_lt _ (by omega))⟩

theorem foldl_natChars (n : Nat) : ∀ a : Nat,
    List.foldl digitStep a (natChars n) = a * 10 ^ (natChars n).length + n := by
  induction n using Nat.strong_induction_on with
  | _ n ih =>
    intro a
    by_cases h : n < 10
    · rw [natChars_low h]
      simp [digitStep, dval_digitChar n h]
      ring
    · have h10 : n / 10 < n := Nat.div_lt_self (by omega) (by omega)
      rw [natChars_high h]
      rw [List.foldl_append, ih (n / 10) h10 a]
      simp [digitStep, dval_digitChar _ (Nat.mod_lt n (by omega))]
      rw [Nat.pow_succ]
      have := Nat.div_add_mod n 10
      ring_nf
      omega

theorem parseDigits_append (ds : List Char) :
    ∀ (rest : List Char) (acc : Nat), (∀ c ∈ ds, isDigitChar c = true) →
    headNotDigit rest = true →
    parseDigits (ds ++ rest) acc = (List.foldl digitStep acc ds, rest) := by
  induction ds with
  | nil =>
    intro rest acc _ hr
    cases rest with
    | nil => rfl
    | cons c cs =>
      simp [headNotDigit] at hr
      simp [parseDigits, hr]
  | cons d ds ih =>
    intro rest acc hds hr
    have hd : isDigitChar d = true := hds d (by simp)
    simp only [List.cons_append, parseDigits, hd, if_pos, List.append_eq]
    rw [ih rest (10 * acc + dval d) (fun c hc => hds c (by simp [hc])) hr]
    rfl

theorem parseDigits_natChars (n : Nat) (rest : List Char)
    (hr : headNotDigit rest = true) :
    parseDigits (natChars n ++ rest) 0 = (n, rest) := by
  rw [parseDigits_append (natChars n) rest 0 (natChars_all_digits n) hr,
    foldl_natChars n 0]
  simp

theorem skipWs_ws_append (w : List Char) (cs : List Char)
    (hw : ∀ c ∈ w, isJsonWs c = true) : skipWs (w ++ cs) = skipWs cs := by
  induction w with
  | nil => rfl
  | cons c w ih =>
    simp only [List.cons_append, skipWs, List.dropWhile]
    rw [hw c (by simp)]
    exact ih (fun c hc => hw c (by simp [hc]))

theorem skipWs_not_ws {c : Char} (cs : List Char) (h : isJsonWs c = false) :
    skipWs (c :: cs) = c :: cs := by
  simp [skipWs, List.dropWhile, h]

theorem skipWs_nil : skipWs [] = [] := rfl

theorem skipWs_all_ws (w : List Char) (hw : ∀ c ∈ w, isJsonWs c = true) :
    skipWs w = [] := by
  have := skipWs_ws_append w [] hw
  simpa using this

theorem parseHex_hexDigitChar : ∀ n, n < 16 → parseHexDigit (hexDigitChar n) = some n := by
  decide


theorem psb_close (cs : List Char) : parseStringBody ('"' :: cs) = some ([], cs) := by
  rw [parseStringBody.eq_def]
  simp

theorem psb_esc_quote (cs : List Char) :
    parseStringBody ('\\' :: '"' :: cs) =
      (parseStringBody cs).map (fun p => ('"' :: p.1, p.2)) := by
  rw [parseStringBody.eq_def]
  simp

theorem psb_esc_backslash (cs : List Char) :
    parseStringBody ('\\' :: '\\' :: cs) =
      (parseStringBody cs).map (fun p => ('\\' :: p.1, p.2)) := by
  rw [parseStringBody.eq_def]
  simp

theorem psb_esc_n (cs : List Char) :
    parseStringBody ('\\' :: 'n' :: cs) =
      (parseStringBody cs).map (fun p => ('\n' :: p.1, p.2)) := by
  rw [parseStringBody.eq_def]
  simp

theorem psb_esc_r (cs : List Char) :
    parseStringBody ('\\' :: 'r' :: cs) =
      (parseStringBody cs).map (fun p => ('\r' :: p.1, p.2)) := by
  rw [parseStringBody.eq_def]
  simp

theorem psb_esc_t (cs : List Char) :
    parseStringBody ('\\' :: 't' :: cs) =
      (parseStringBody cs).map (fun p => ('\t' :: p.1, p.2)) := by
  rw [parseStringBody.eq_def]
  simp

theorem psb_esc_b (cs : List Char) :
    parseStringBody ('\\' :: 'b' :: cs) =
      (parseStringBody cs).map (fun p => (Char.ofNat 8 :: p.1, p.2)) := by
  rw [parseStringBody.eq_def]
  simp

theorem psb_esc_f (cs : List Char) :
    parseStringBody ('\\' :: 'f' :: cs) =
      (parseStringBody cs).map (fun p => (Char.ofNat 12 :: p.1, p.2)) := by
  rw [parseStringBody.eq_def]
  simp

theorem psb_esc_u (h1 h2 h3 h4 : Char) (cs : List Char) :
    parseStringBody ('\\' :: 'u' :: h1 :: h2 :: h3 :: h4 :: cs) =
      match parseHexDigit h1, parseHexDigit h2, parseHexDigit h3, parseHexDigit h4 with
      | some a, some b, some c3, some d =>
        (parseStringBody cs).map
          (fun p => (Char.ofNat (4096 * a + 256 * b + 16 * c3 + d) :: p.1, p.2))
      | _, _, _, _ => none := by
  rw [parseStringBody.eq_def]
  simp

theorem psb_plain (c : Char) (cs : List Char) (h1 : ¬ c = '"') (h2 : ¬ c = '\\')
    (h3 : ¬ c.toNat < 32) :
    parseStringBody (c :: cs) = (parseStringBody cs).map (fun p => (c :: p.1, p.2)) := by
  rw [parseStringBody.eq_def]
  simp [h1, h2, h3]

theorem parseStringBody_esc (s : List Char) : ∀ rest : List Char,
    parseStringBody (escString s ++ '"' :: rest) = some (s, rest) := by
  induction s with
  | nil =>
    intro rest
    have : escString [] = [] := rfl
    rw [this, List.nil_append, psb_close]
  | cons c s ih =>
    intro rest
    have hesc : escString (c :: s) = escChar c ++ escString s := by
      simp [escString]
    rw [hesc, List.append_assoc]
    by_cases h1 : c = '"'
    · subst h1
      have : escChar '"' = ['\\', '"'] := by simp [escChar]
      rw [this]
      simp only [List.cons_append, List.nil_append]
      rw [psb_esc_quote, ih]
      rfl
    by_cases h2 : c = '\\'
    · subst h2
      have : escChar '\\' = ['\\', '\\'] := by simp [escChar]
      rw [this]
      simp only [List.cons_append, List.nil_append]
      rw [psb_esc_backslash, ih]
      rfl
    by_cases h3 : c = '\n'
    · subst h3
      have : escChar '\n' = ['\\', 'n'] := by simp [escChar]
      rw [this]
      simp only [List.cons_append, List.nil_append]
      rw [psb_esc_n, ih]
      rfl
    by_cases h4 : c = '\t'
    · subst h4
      have : escChar '\t' = ['\\', 't'] := by simp [escChar]
      rw [this]
      simp only [List.cons_append, List.nil_append]
      rw [psb_esc_t, ih]
      rfl
    by_cases h5 : c = '\r'
    · subst h5
      have : escChar '\r' = ['\\', 'r'] := by simp [escChar]
      rw [this]
      simp only [List.cons_append, List.nil_append]
      rw [psb_esc_r, ih]
      rfl
    by_cases h6 : c = Char.ofNat 8
    · subst h6
      have : escChar (Char.ofNat 8) = ['\\', 'b'] := by simp [escChar]
      rw [this]
      simp only [List.cons_append, List.nil_append]
      rw [psb_esc_b, ih]
      rfl
    by_cases h7 : c = Char.ofNat 12
    · subst h7
      have : escChar (Char.ofNat 12) = ['\\', 'f'] := by simp [escChar]
      rw [this]
      simp only [List.cons_append, List.nil_append]
      rw [psb_esc_f, ih]
      rfl
    by_cases h8 : c.toNat < 32
    · have hesc2 : escChar c =
          ['\\', 'u', '0', '0', hexDigitChar (c.toNat / 16), hexDigitChar (c.toNat % 16)] := by
        simp [escChar, h1, h2, h3, h4, h5, h6, h7, h8]
      rw [hesc2]
      simp only [List.cons_append, List.nil_append]
      rw [psb_esc_u]
      rw [parseHex_hexDigitChar (c.toNat / 16) (by omega),
        parseHex_hexDigitChar (c.toNat % 16) (by omega)]
      have h0 : parseHexDigit '0' = some 0 := by decide
      rw [h0]
      simp only []
      rw [ih]
      have hval : 4096 * 0 + 256 * 0 + 16 * (c.toNat / 16) + c.toNat % 16 = c.toNat := by omega
      rw [hval, Char.ofNat_toNat]
      rfl
    · have hesc2 : escChar c = [c] := by
        simp [escChar, h1, h2, h3, h4, h5, h6, h7, h8]
      rw [hesc2]
      simp only [List.cons_append, List.nil_append]
      rw [psb_plain c _ h1 h2 h8, ih]
      rfl

theorem parseVal_succ (fuel : Nat) (cs : List Char) :
    parseVal (fuel + 1) cs = pvAfterWs fuel (skipWs cs) := rfl

theorem parseMembers_succ (fuel : Nat) (cs : List Char) :
    parseMembers (fuel + 1) cs = pmAfterWs fuel (skipWs cs) := rfl

theorem parseItems_succ (fuel : Nat) (cs : List Char) :
    parseItems (fuel + 1) cs = (do
      let (v, rest) ← parseVal fuel cs
      match skipWs rest with
      | [] => none
      | d :: rest' =>
        if d = ',' then do
          let (vs, rest'') ← parseItems fuel rest'
          pure (v :: vs, rest'')
        else if d = ']' then pure ([v], rest')
        else none) := rfl

theorem parseVal_ws (fuel : Nat) (w cs : List Char)
    (hw : ∀ c ∈ w, isJsonWs c = true) :
    parseVal fuel (w ++ cs) = parseVal fuel cs := by
  cases fuel with
  | zero => rfl
  | succ f => rw [parseVal_succ, parseVal_succ, skipWs_ws_append w cs hw]

theorem parseMembers_ws (fuel : Nat) (w cs : List Char)
    (hw : ∀ c ∈ w, isJsonWs c = true) :
    parseMembers fuel (w ++ cs) = parseMembers fuel cs := by
  cases fuel with
  | zero => rfl
  | succ f => rw [parseMembers_succ, parseMembers_succ, skipWs_ws_append w cs hw]

theorem parseItems_ws (fuel : Nat) (w cs : List Char)
    (hw : ∀ c ∈ w, isJsonWs c = true) :
    parseItems fuel (w ++ cs) = parseItems fuel cs := by
  cases fuel with
  | zero => rfl
  | succ f => rw [parseItems_succ, parseItems_succ, parseVal_ws f w cs hw]

/-! ## Character classification facts and fuel accounting -/

theorem isDigit_toNat {c : Char} (h : isDigitChar c = true) :
    48 ≤ c.toNat ∧ c.toNat ≤ 57 := by
  simpa [isDigitChar, Bool.and_eq_true, decide_eq_true_eq] using h

theorem digit_facts {c : Char} (h : isDigitChar c = true) :
    isJsonWs c = false ∧ isPyWs c = false ∧ ¬ c = 'n' ∧ ¬ c = 't' ∧ ¬ c = 'f' ∧
    ¬ c = '"' ∧ ¬ c = '[' ∧ ¬ c = lbrace ∧ ¬ c = '-' ∧ ¬ c = '`' ∧ ¬ c = ']' ∧
    ¬ c = 'j' := by
  have hn := isDigit_toNat h
  have hjs : isJsonWs c = false := by
    simp only [isJsonWs, Bool.or_eq_false_iff, decide_eq_false_iff_not]
    refine ⟨⟨⟨fun he => ?_, fun he => ?_⟩, fun he => ?_⟩, fun he => ?_⟩ <;>
      (subst he; exact absurd hn (by decide))
  refine ⟨hjs, ?_, ?_, ?_, ?_, ?_, ?_, ?_, ?_, ?_, ?_, ?_⟩
  · simp only [isPyWs, hjs, Bool.false_or, Bool.or_eq_false_iff,
      decide_eq_false_iff_not]
    exact ⟨fun he => by subst he; exact absurd hn (by decide),
      fun he => by subst he; exact absurd hn (by decide)⟩
  all_goals exact fun he => by subst he; exact absurd hn (by decide)

theorem string_eta (s : String) : (⟨s.data⟩ : String) = s := rfl


theorem fuelNeed_pos (j : Json) : 1 ≤ fuelNeed j := by
  cases j <;> simp [fuelNeed]

/-- Heads of serialized values: never whitespace, never a backtick, closing
bracket, or the letter `j`. -/
theorem dumps_head (j : Json) :
    ∃ c t, dumpsChars j = c :: t ∧ isJsonWs c = false ∧ isPyWs c = false ∧
      ¬ c = '`' ∧ ¬ c = ']' ∧ ¬ c = 'j' := by
  cases j with
  | null => exact ⟨'n', _, rfl, by decide, by decide, by decide, by decide, by decide⟩
  | bool b =>
    cases b with
    | true => exact ⟨'t', _, rfl, by decide, by decide, by decide, by decide, by decide⟩
    | false => exact ⟨'f', _, rfl, by decide, by decide, by decide, by decide, by decide⟩
  | num n =>
    by_cases hneg : n < 0
    · refine ⟨'-', natChars n.natAbs, ?_, by decide, by decide, by decide, by decide, by decide⟩
      show intChars n = _
      rw [intChars, if_pos hneg]
    · obtain ⟨d, t, ht, hd⟩ := natChars_head n.toNat
      obtain ⟨h1, h2, _, _, _, _, _, _, _, h10, h11, h12⟩ := digit_facts hd
      refine ⟨d, t, ?_, h1, h2, h10, h11, h12⟩
      show intChars n = _
      rw [intChars, if_neg hneg, ht]
  | str s => exact ⟨'"', _, rfl, by decide, by decide, by decide, by decide, by decide⟩
  | arr xs =>
    cases xs with
    | nil => exact ⟨'[', _, rfl, by decide, by decide, by decide, by decide, by decide⟩
    | cons x xs => exact ⟨'[', _, rfl, by decide, by decide, by decide, by decide, by decide⟩
  | obj kvs =>
    cases kvs with
    | nil => exact ⟨lbrace, _, rfl, by decide, by decide, by decide, by decide, by decide⟩
    | cons kv kvs => exact ⟨lbrace, _, rfl, by decide, by decide, by decide, by decide, by decide⟩

/-- Last characters of serialized values are never stripped whitespace. -/
theorem dumps_last (j : Json) :
    ∃ t c, dumpsChars j = t ++ [c] ∧ isPyWs c = false := by
  cases j with
  | null => exact ⟨['n', 'u', 'l'], 'l', rfl, by decide⟩
  | bool b =>
    cases b with
    | true => exact ⟨['t', 'r', 'u'], 'e', rfl, by decide⟩
    | false => exact ⟨['f', 'a', 'l', 's'], 'e', rfl, by decide⟩
  | num n =>
    by_cases hneg : n < 0
    · obtain ⟨t, d, ht, hd⟩ := natChars_last n.natAbs
      refine ⟨'-' :: t, d, ?_, (digit_facts hd).2.1⟩
      show intChars n = _
      rw [intChars, if_pos hneg, ht]
      rfl
    · obtain ⟨t, d, ht, hd⟩ := natChars_last n.toNat
      refine ⟨t, d, ?_, (digit_facts hd).2.1⟩
      show intChars n = _
      rw [intChars, if_neg hneg, ht]
  | str s =>
    refine ⟨'"' :: escString s.data, '"', ?_, by decide⟩
    show '"' :: (escString s.data ++ ['"']) = _
    rfl
  | arr xs =>
    cases xs with
    | nil => exact ⟨['['], ']', rfl, by decide⟩
    | cons x xs =>
      refine ⟨'[' :: (dumpsChars x ++ dumpsItems xs), ']', ?_, by decide⟩
      show '[' :: (dumpsChars x ++ dumpsItems xs ++ [']']) = _
      simp
  | obj kvs =>
    cases kvs with
    | nil => exact ⟨[lbrace], rbrace, rfl, by decide⟩
    | cons kv kvs =>
      refine ⟨lbrace :: (dumpsKV kv ++ dumpsMembers kvs), rbrace, ?_, by decide⟩
      show lbrace :: (dumpsKV kv ++ dumpsMembers kvs ++ [rbrace]) = _
      simp

theorem headNotDigit_items (xs : List Json) (rest : List Char) :
    headNotDigit (dumpsItems xs ++ ']' :: rest) = true := by
  cases xs <;> rfl

theorem headNotDigit_members (kvs : List (String × Json)) (rest : List Char) :
    headNotDigit (dumpsMembers kvs ++ rbrace :: rest) = true := by
  cases kvs <;> rfl

theorem pv_bracket (f : Nat) (rest0 : List Char) :
    pvAfterWs f ('[' :: rest0) =
      (match skipWs rest0 with
       | [] => none
       | d :: rest' =>
         if d = ']' then some (.arr [], rest')
         else (parseItems f (d :: rest')).map (fun p => (.arr p.1, p.2))) := rfl

theorem pv_lbrace (f : Nat) (rest0 : List Char) :
    pvAfterWs f (lbrace :: rest0) =
      (match skipWs rest0 with
       | [] => none
       | d :: rest' =>
         if d = rbrace then some (.obj [], rest')
         else (parseMembers f (d :: rest')).map (fun p => (.obj p.1, p.2))) := rfl

theorem pv_quote (f : Nat) (rest0 : List Char) :
    pvAfterWs f ('"' :: rest0) =
      (parseStringBody rest0).map (fun p => (.str ⟨p.1⟩, p.2)) := rfl

theorem pv_minus (f : Nat) (rest0 : List Char) :
    pvAfterWs f ('-' :: rest0) =
      (match rest0 with
       | d :: _ =>
         if isDigitChar d then
           let p := parseDigits rest0 0
           some (.num (-(p.1 : Int)), p.2)
         else none
       | [] => none) := rfl

theorem pv_digit (f : Nat) (c : Char) (rest0 : List Char) (h : isDigitChar c = true) :
    pvAfterWs f (c :: rest0) =
      (let p := parseDigits (c :: rest0) 0
       some (.num (p.1 : Int), p.2)) := by
  obtain ⟨_, _, h1, h2, h3, h4, h5, h6, h7, _, _, _⟩ := digit_facts h
  simp only [pvAfterWs, if_neg h1, if_neg h2, if_neg h3, if_neg h4, if_neg h5,
    if_neg h6, if_neg h7, if_pos h]

theorem pm_quote (f : Nat) (rest0 : List Char) :
    pmAfterWs f ('"' :: rest0) = (do
      let (k, rest1) ← parseStringBody rest0
      match skipWs rest1 with
      | [] => none
      | d :: rest2 =>
        if d = ':' then do
          let (v, rest3) ← parseVal f rest2
          match skipWs rest3 with
          | [] => none
          | d2 :: rest4 =>
            if d2 = ',' then do
              let (kvs, rest5) ← parseMembers f rest4
              pure ((⟨k⟩, v) :: kvs, rest5)
            else if d2 = rbrace then pure ([((⟨k⟩ : String), v)], rest4)
            else none
        else none) := rfl


theorem json_sizeOf_pos (j : Json) : 1 ≤ sizeOf j := by
  cases j <;> simp

theorem jlist_sizeOf_pos (l : List Json) : 1 ≤ sizeOf l := by
  cases l <;> simp <;> omega

theorem kvlist_sizeOf_pos (l : List (String × Json)) : 1 ≤ sizeOf l := by
  cases l <;> simp <;> omega

/-- Round trip of the serializer and the parser, proved for all three
syntactic classes simultaneously by strong induction on a size bound. -/
theorem rt_main (N : Nat) :
    (∀ j : Json, sizeOf j ≤ N → ∀ (fuel : Nat) (rest : List Char),
      fuelNeed j ≤ fuel → headNotDigit rest = true →
      parseVal fuel (dumpsChars j ++ rest) = some (j, rest)) ∧
    (∀ (x : Json) (xs : List Json), sizeOf x + sizeOf xs ≤ N →
      ∀ (fuel : Nat) (rest : List Char), fuelNeedItems (x :: xs) ≤ fuel →
      parseItems fuel (dumpsChars x ++ (dumpsItems xs ++ ']' :: rest)) =
        some (x :: xs, rest)) ∧
    (∀ (k : String) (v : Json) (kvs : List (String × Json)),
      sizeOf v + sizeOf kvs ≤ N →
      ∀ (fuel : Nat) (rest : List Char), fuelNeedMembers ((k, v) :: kvs) ≤ fuel →
      parseMembers fuel (dumpsKV (k, v) ++ (dumpsMembers kvs ++ rbrace :: rest)) =
        some ((k, v) :: kvs, rest)) := by
  induction N using Nat.strong_induction_on with
  | _ N ih =>
  refine ⟨?_, ?_, ?_⟩
  · -- values
    intro j hsz fuel rest hf hr
    obtain ⟨f, rfl⟩ : ∃ f, fuel = f + 1 :=
      ⟨fuel - 1, by have := fuelNeed_pos j; omega⟩
    cases j with
    | null => rfl
    | bool b => cases b <;> rfl
    | num n =>
      by_cases hneg : n < 0
      · have hD : dumpsChars (.num n) = '-' :: natChars n.natAbs := by
          show intChars n = _
          rw [intChars, if_pos hneg]
        obtain ⟨d, t, ht, hd⟩ := natChars_head n.natAbs
        rw [hD, parseVal_succ, List.cons_append, skipWs_not_ws _ (by decide), pv_minus]
        rw [ht, List.cons_append]
        simp only [if_pos hd]
        rw [show d :: (t ++ rest) = natChars n.natAbs ++ rest by rw [ht]; rfl]
        rw [parseDigits_natChars n.natAbs rest hr]
        have hval : -((n.natAbs : Int)) = n := by omega
        simp only [hval]
      · have hD : dumpsChars (.num n) = natChars n.toNat := by
          show intChars n = _
          rw [intChars, if_neg hneg]
        obtain ⟨d, t, ht, hd⟩ := natChars_head n.toNat
        have hws : isJsonWs d = false := (digit_facts hd).1
        rw [hD, ht, List.cons_append, parseVal_succ, skipWs_not_ws _ hws,
          pv_digit f d _ hd]
        rw [show d :: (t ++ rest) = natChars n.toNat ++ rest by rw [ht]; rfl]
        rw [parseDigits_natChars n.toNat rest hr]
        have hval : ((n.toNat : Int)) = n := by omega
        simp only [hval]
    | str s =>
      have hD : dumpsChars (.str s) ++ rest = '"' :: (escString s.data ++ '"' :: rest) := by
        show ('"' :: (escString s.data ++ ['"'])) ++ rest = _
        simp
      rw [hD, parseVal_succ, skipWs_not_ws _ (by decide), pv_quote,
        parseStringBody_esc s.data rest]
      rfl
    | arr xs =>
      cases xs with
      | nil => rfl
      | cons x xs =>
        have hsz' : sizeOf x + sizeOf xs < N := by
          have h1 : sizeOf (Json.arr (x :: xs)) = 1 + (1 + sizeOf x + sizeOf xs) := by
            simp
          omega
        simp only [fuelNeed, fuelNeedItems] at hf
        have hD : dumpsChars (.arr (x :: xs)) ++ rest =
            '[' :: (dumpsChars x ++ (dumpsItems xs ++ ']' :: rest)) := by
          show ('[' :: (dumpsChars x ++ dumpsItems xs ++ [']'])) ++ rest = _
          simp
        rw [hD, parseVal_succ, skipWs_not_ws _ (by decide), pv_bracket]
        obtain ⟨c, t, ht, hws, _, hbt, hbr, _⟩ := dumps_head x
        rw [ht, List.cons_append, skipWs_not_ws _ hws]
        simp only [if_neg hbr]
        rw [show c :: (t ++ (dumpsItems xs ++ ']' :: rest)) =
            dumpsChars x ++ (dumpsItems xs ++ ']' :: rest) by rw [ht]; rfl]
        rw [(ih (sizeOf x + sizeOf xs) hsz').2.1 x xs le_rfl f rest
          (by simp only [fuelNeedItems]; omega)]
        rfl
    | obj kvs =>
      cases kvs with
      | nil => rfl
      | cons kv kvs =>
        obtain ⟨k, v⟩ := kv
        have hsz' : sizeOf v + sizeOf kvs < N := by
          have h1 : sizeOf (Json.obj ((k, v) :: kvs)) =
              1 + (1 + (1 + sizeOf k + sizeOf v) + sizeOf kvs) := by
            simp
          omega
        simp only [fuelNeed, fuelNeedMembers] at hf
        have hD : dumpsChars (.obj ((k, v) :: kvs)) ++ rest =
            lbrace :: (dumpsKV (k, v) ++ (dumpsMembers kvs ++ rbrace :: rest)) := by
          show (lbrace :: (dumpsKV (k, v) ++ dumpsMembers kvs ++ [rbrace])) ++ rest = _
          simp
        rw [hD, parseVal_succ, skipWs_not_ws _ (by decide), pv_lbrace]
        have hKV : dumpsKV (k, v) ++ (dumpsMembers kvs ++ rbrace :: rest) =
            '"' :: (escString k.data ++ '"' :: ':' :: ' ' :: dumpsChars v ++
              (dumpsMembers kvs ++ rbrace :: rest)) := by
          show ('"' :: (escString k.data ++ '"' :: ':' :: ' ' :: dumpsChars v)) ++ _ = _
          simp
        rw [hKV, skipWs_not_ws _ (by decide)]
        simp only [if_neg (show ¬ ('"' : Char) = rbrace by decide)]
        rw [show ('"' :: (escString k.data ++ '"' :: ':' :: ' ' :: dumpsChars v ++
              (dumpsMembers kvs ++ rbrace :: rest))) =
            dumpsKV (k, v) ++ (dumpsMembers kvs ++ rbrace :: rest) by rw [hKV]]
        rw [(ih (sizeOf v + sizeOf kvs) hsz').2.2 k v kvs le_rfl f rest
          (by simp only [fuelNeedMembers]; omega)]
        rfl
  · -- array items
    intro x xs hsz fuel rest hf
    obtain ⟨f, rfl⟩ : ∃ f, fuel = f + 1 :=
      ⟨fuel - 1, by simp only [fuelNeedItems] at hf; omega⟩
    simp only [fuelNeedItems] at hf
    have hszx : sizeOf x < N := by
      have := jlist_sizeOf_pos xs
      omega
    rw [parseItems_succ]
    rw [(ih (sizeOf x) hszx).1 x le_rfl f _ (by omega) (headNotDigit_items xs rest)]
    cases xs with
    | nil =>
      show (match skipWs (dumpsItems [] ++ ']' :: rest) with
        | [] => none
        | d :: rest' =>
          if d = ',' then do
            let (vs, rest'') ← parseItems f rest'
            pure (x :: vs, rest'')
          else if d = ']' then pure ([x], rest')
          else none) = some ([x], rest)
      rfl
    | cons y ys =>
      show (match skipWs (dumpsItems (y :: ys) ++ ']' :: rest) with
        | [] => none
        | d :: rest' =>
          if d = ',' then do
            let (vs, rest'') ← parseItems f rest'
            pure (x :: vs, rest'')
          else if d = ']' then pure ([x], rest')
          else none) = some (x :: y :: ys, rest)
      have hsz' : sizeOf y + sizeOf ys < N := by
        have h1 : sizeOf (y :: ys) = 1 + sizeOf y + sizeOf ys := by simp
        have := json_sizeOf_pos x
        omega
      have hI : dumpsItems (y :: ys) ++ ']' :: rest =
          ',' :: ' ' :: (dumpsChars y ++ (dumpsItems ys ++ ']' :: rest)) := by
        show (',' :: ' ' :: (dumpsChars y ++ dumpsItems ys)) ++ _ = _
        simp
      rw [hI, skipWs_not_ws _ (by decide)]
      simp only [reduceIte]
      rw [show (' ' :: (dumpsChars y ++ (dumpsItems ys ++ ']' :: rest))) =
          [' '] ++ (dumpsChars y ++ (dumpsItems ys ++ ']' :: rest)) from rfl]
      rw [parseItems_ws f [' '] _ (by decide)]
      rw [(ih (sizeOf y + sizeOf ys) hsz').2.1 y ys le_rfl f rest
        (by simp only [fuelNeedItems] at hf ⊢; omega)]
      rfl
  · -- object members
    intro k v kvs hsz fuel rest hf
    obtain ⟨f, rfl⟩ : ∃ f, fuel = f + 1 :=
      ⟨fuel - 1, by simp only [fuelNeedMembers] at hf; omega⟩
    simp only [fuelNeedMembers] at hf
    have hszv : sizeOf v < N := by
      have := kvlist_sizeOf_pos kvs
      omega
    have hKV : dumpsKV (k, v) ++ (dumpsMembers kvs ++ rbrace :: rest) =
        '"' :: (escString k.data ++ '"' :: (':' :: ' ' :: (dumpsChars v ++
          (dumpsMembers kvs ++ rbrace :: rest)))) := by
      show ('"' :: (escString k.data ++ '"' :: ':' :: ' ' :: dumpsChars v)) ++ _ = _
      simp
    rw [hKV, parseMembers_succ, skipWs_not_ws _ (by decide), pm_quote,
      parseStringBody_esc k.data]
    show (match skipWs (':' :: ' ' :: (dumpsChars v ++ (dumpsMembers kvs ++ rbrace :: rest))) with
      | [] => none
      | d :: rest2 =>
        if d = ':' then do
          let (v2, rest3) ← parseVal f rest2
          match skipWs rest3 with
          | [] => none
          | d2 :: rest4 =>
            if d2 = ',' then do
              let (kvs2, rest5) ← parseMembers f rest4
              pure ((⟨k.data⟩, v2) :: kvs2, rest5)
            else if d2 = rbrace then pure ([((⟨k.data⟩ : String), v2)], rest4)
            else none
        else none) = some ((k, v) :: kvs, rest)
    rw [skipWs_not_ws _ (by decide)]
    simp only [reduceIte]
    rw [show (' ' :: (dumpsChars v ++ (dumpsMembers kvs ++ rbrace :: rest))) =
        [' '] ++ (dumpsChars v ++ (dumpsMembers kvs ++ rbrace :: rest)) from rfl]
    rw [parseVal_ws f [' '] _ (by decide)]
    rw [(ih (sizeOf v) hszv).1 v le_rfl f _ (by omega) (headNotDigit_members kvs rest)]
    cases kvs with
    | nil =>
      show (match skipWs (dumpsMembers [] ++ rbrace :: rest) with
        | [] => none
        | d2 :: rest4 =>
          if d2 = ',' then do
            let (kvs2, rest5) ← parseMembers f rest4
            pure ((⟨k.data⟩, v) :: kvs2, rest5)
          else if d2 = rbrace then pure ([((⟨k.data⟩ : String), v)], rest4)
          else none) = some ([(k, v)], rest)
      rw [show dumpsMembers [] ++ rbrace :: rest = rbrace :: rest from rfl]
      rw [skipWs_not_ws _ (by decide)]
      simp only [reduceIte]
      rw [string_eta, if_neg (show ¬ rbrace = ',' by decide)]
      rfl
    | cons kv2 kvs' =>
      obtain ⟨k2, v2⟩ := kv2
      show (match skipWs (dumpsMembers ((k2, v2) :: kvs') ++ rbrace :: rest) with
        | [] => none
        | d2 :: rest4 =>
          if d2 = ',' then do
            let (kvs2, rest5) ← parseMembers f rest4
            pure ((⟨k.data⟩, v) :: kvs2, rest5)
          else if d2 = rbrace then pure ([((⟨k.data⟩ : String), v)], rest4)
          else none) = some ((k, v) :: (k2, v2) :: kvs', rest)
      have hsz' : sizeOf v2 + sizeOf kvs' < N := by
        have h1 : sizeOf ((k2, v2) :: kvs') = 1 + (1 + sizeOf k2 + sizeOf v2) + sizeOf kvs' := by
          simp
        have := json_sizeOf_pos v
        omega
      have hM : dumpsMembers ((k2, v2) :: kvs') ++ rbrace :: rest =
          ',' :: ' ' :: (dumpsKV (k2, v2) ++ (dumpsMembers kvs' ++ rbrace :: rest)) := by
        show (',' :: ' ' :: (dumpsKV (k2, v2) ++ dumpsMembers kvs')) ++ _ = _
        simp
      rw [hM, skipWs_not_ws _ (by decide)]
      simp only [reduceIte]
      rw [show (' ' :: (dumpsKV (k2, v2) ++ (dumpsMembers kvs' ++ rbrace :: rest))) =
          [' '] ++ (dumpsKV (k2, v2) ++ (dumpsMembers kvs' ++ rbrace :: rest)) from rfl]
      rw [parseMembers_ws f [' '] _ (by decide)]
      rw [(ih (sizeOf v2 + sizeOf kvs') hsz').2.2 k2 v2 kvs' le_rfl f rest
        (by simp only [fuelNeedMembers] at hf ⊢; omega)]
      rw [string_eta]
      rfl

/-- Parsing the serialization of a value consumes exactly it. -/
theorem rt_val (j : Json) (fuel : Nat) (rest : List Char)
    (hf : fuelNeed j ≤ fuel) (hr : headNotDigit rest = true) :
    parseVal fuel (dumpsChars j ++ rest) = some (j, rest) :=
  (rt_main (sizeOf j)).1 j le_rfl fuel rest hf hr

theorem natChars_ne_nil (n : Nat) : natChars n ≠ [] := by
  obtain ⟨d, t, ht, _⟩ := natChars_head n
  simp [ht]

/-- The fuel accounting is bounded by the serialized length. -/
theorem fuelNeed_le_len (N : Nat) :
    (∀ j : Json, sizeOf j ≤ N → fuelNeed j ≤ (dumpsChars j).length) ∧
    (∀ xs : List Json, sizeOf xs ≤ N → fuelNeedItems xs ≤ (dumpsItems xs).length) ∧
    (∀ kvs : List (String × Json), sizeOf kvs ≤ N →
      fuelNeedMembers kvs ≤ (dumpsMembers kvs).length) := by
  induction N using Nat.strong_induction_on with
  | _ N ih =>
  refine ⟨?_, ?_, ?_⟩
  · intro j hsz
    cases j with
    | null => decide
    | bool b => cases b <;> decide
    | num n =>
      have h1 : 1 ≤ (intChars n).length := by
        rw [intChars]
        by_cases hneg : n < 0
        · simp [if_pos hneg]
        · rw [if_neg hneg]
          have := natChars_ne_nil n.toNat
          cases hh : natChars n.toNat with
          | nil => exact absurd hh this
          | cons a l => simp [hh]
      simpa [fuelNeed] using h1
    | str s =>
      show fuelNeed (.str s) ≤ ('"' :: (escString s.data ++ ['"'])).length
      simp [fuelNeed]
    | arr xs =>
      cases xs with
      | nil => decide
      | cons x xs =>
        have hx : sizeOf x < N := by
          have h1 : sizeOf (Json.arr (x :: xs)) = 1 + (1 + sizeOf x + sizeOf xs) := by simp
          omega
        have hxs : sizeOf xs < N := by
          have h1 : sizeOf (Json.arr (x :: xs)) = 1 + (1 + sizeOf x + sizeOf xs) := by simp
          have := jlist_sizeOf_pos xs
          omega
        have ih1 := (ih (sizeOf x) hx).1 x le_rfl
        have ih2 := (ih (sizeOf xs) hxs).2.1 xs le_rfl
        show fuelNeed (.arr (x :: xs)) ≤
          ('[' :: (dumpsChars x ++ dumpsItems xs ++ [']'])).length
        simp only [fuelNeed, fuelNeedItems, List.length_cons, List.length_append,
          List.length_singleton]
        omega
    | obj kvs =>
      cases kvs with
      | nil => decide
      | cons kv kvs =>
        obtain ⟨k, v⟩ := kv
        have hv : sizeOf v < N := by
          have h1 : sizeOf (Json.obj ((k, v) :: kvs)) =
              1 + (1 + (1 + sizeOf k + sizeOf v) + sizeOf kvs) := by simp
          omega
        have hkvs : sizeOf kvs < N := by
          have h1 : sizeOf (Json.obj ((k, v) :: kvs)) =
              1 + (1 + (1 + sizeOf k + sizeOf v) + sizeOf kvs) := by simp
          have := kvlist_sizeOf_pos kvs
          omega
        have ih1 := (ih (sizeOf v) hv).1 v le_rfl
        have ih2 := (ih (sizeOf kvs) hkvs).2.2 kvs le_rfl
        show fuelNeed (.obj ((k, v) :: kvs)) ≤
          (lbrace :: (dumpsKV (k, v) ++ dumpsMembers kvs ++ [rbrace])).length
        have hKV : (dumpsKV (k, v)).length = (escString k.data).length + 4 + (dumpsChars v).length := by
          show ('"' :: (escString k.data ++ '"' :: ':' :: ' ' :: dumpsChars v)).length = _
          simp
          omega
        simp only [fuelNeed, fuelNeedMembers, List.length_cons, List.length_append,
          List.length_singleton]
        omega
  · intro xs hsz
    cases xs with
    | nil => decide
    | cons x xs =>
      have hx : sizeOf x < N := by
        have h1 : sizeOf (x :: xs) = 1 + sizeOf x + sizeOf xs := by simp
        have := jlist_sizeOf_pos xs
        omega
      have hxs : sizeOf xs < N := by
        have h1 : sizeOf (x :: xs) = 1 + sizeOf x + sizeOf xs := by simp
        have := json_sizeOf_pos x
        omega
      have ih1 := (ih (sizeOf x) hx).1 x le_rfl
      have ih2 := (ih (sizeOf xs) hxs).2.1 xs le_rfl
      show fuelNeedItems (x :: xs) ≤ (',' :: ' ' :: (dumpsChars x ++ dumpsItems xs)).length
      simp only [fuelNeedItems, List.length_cons, List.length_append]
      omega
  · intro kvs hsz
    cases kvs with
    | nil => decide
    | cons kv kvs =>
      obtain ⟨k, v⟩ := kv
      have hv : sizeOf v < N := by
        have h1 : sizeOf ((k, v) :: kvs) = 1 + (1 + sizeOf k + sizeOf v) + sizeOf kvs := by
          simp
        have := kvlist_sizeOf_pos kvs
        omega
      have hkvs : sizeOf kvs < N := by
        have h1 : sizeOf ((k, v) :: kvs) = 1 + (1 + sizeOf k + sizeOf v) + sizeOf kvs := by
          simp
        have := json_sizeOf_pos v
        omega
      have ih1 := (ih (sizeOf v) hv).1 v le_rfl
      have ih2 := (ih (sizeOf kvs) hkvs).2.2 kvs le_rfl
      show fuelNeedMembers ((k, v) :: kvs) ≤
        (',' :: ' ' :: (dumpsKV (k, v) ++ dumpsMembers kvs)).length
      have hKV : (dumpsKV (k, v)).length =
          (escString k.data).length + 4 + (dumpsChars v).length := by
        show ('"' :: (escString k.data ++ '"' :: ':' :: ' ' :: dumpsChars v)).length = _
        simp
        omega
      simp only [fuelNeedMembers, List.length_cons, List.length_append]
      omega

theorem ws_not_digit {c : Char} (h : isJsonWs c = true) : isDigitChar c = false := by
  have h' : c = ' ' ∨ c = '\t' ∨ c = '\n' ∨ c = '\r' := by
    simpa [isJsonWs, Bool.or_eq_true, decide_eq_true_eq, or_assoc] using h
  rcases h' with h' | h' | h' | h' <;> subst h' <;> decide

theorem headNotDigit_of_ws (w : List Char) (hw : ∀ c ∈ w, isJsonWs c = true) :
    headNotDigit w = true := by
  cases w with
  | nil => rfl
  | cons c cs =>
    have := ws_not_digit (hw c (by simp))
    simp [headNotDigit, this]

/-- The full decoder round trip: decoding the serialization of `j`, with any
JSON whitespace around it, returns `j`. -/
theorem jsonLoads_dumps (j : Json) (w1 w2 : List Char)
    (hw1 : ∀ c ∈ w1, isJsonWs c = true) (hw2 : ∀ c ∈ w2, isJsonWs c = true) :
    jsonLoads (w1 ++ dumpsChars j ++ w2) = some j := by
  rw [jsonLoads]
  have hlen : fuelNeed j ≤ (w1 ++ dumpsChars j ++ w2).length + 1 := by
    have h1 := (fuelNeed_le_len (sizeOf j)).1 j le_rfl
    simp only [List.length_append]
    omega
  rw [List.append_assoc, parseVal_ws _ w1 _ hw1,
    rt_val j _ w2 (by simpa [List.length_append] using hlen) (headNotDigit_of_ws w2 hw2)]
  simp [skipWs_all_ws w2 hw2]

theorem dropWhile_append_of_all (p : Char → Bool) (w cs : List Char)
    (hw : ∀ c ∈ w, p c = true) :
    List.dropWhile p (w ++ cs) = List.dropWhile p cs := by
  induction w with
  | nil => rfl
  | cons c w ih =>
    simp only [List.cons_append, List.dropWhile]
    rw [hw c (by simp)]
    exact ih (fun c hc => hw c (by simp [hc]))

theorem dropWhile_cons_of_neg (p : Char → Bool) (c : Char) (cs : List Char)
    (h : p c = false) : List.dropWhile p (c :: cs) = c :: cs := by
  simp [List.dropWhile, h]

/-- `str.strip()` removes exactly the surrounding whitespace when the
stripped core starts and ends with non-whitespace. -/
theorem pyStrip_eq (s w1 w2 : List Char)
    (hw1 : ∀ c ∈ w1, isPyWs c = true) (hw2 : ∀ c ∈ w2, isPyWs c = true)
    (hhead : ∃ c t, s = c :: t ∧ isPyWs c = false)
    (hlast : ∃ t c, s = t ++ [c] ∧ isPyWs c = false) :
    pyStrip (w1 ++ s ++ w2) = s := by
  obtain ⟨c, t, hs1, hc⟩ := hhead
  obtain ⟨t', c', hs2, hc'⟩ := hlast
  rw [pyStrip, List.append_assoc, dropWhile_append_of_all _ w1 _ hw1]
  rw [show s ++ w2 = c :: (t ++ w2) by rw [hs1]; rfl]
  rw [dropWhile_cons_of_neg _ _ _ hc]
  rw [show c :: (t ++ w2) = s ++ w2 by rw [hs1]; rfl]
  rw [List.reverse_append, hs2]
  rw [show (t' ++ [c']).reverse = c' :: t'.reverse by simp]
  rw [show w2.reverse ++ c' :: t'.reverse = w2.reverse ++ (c' :: t'.reverse) from rfl]
  rw [dropWhile_append_of_all _ w2.reverse _ (by intro c hc2; exact hw2 c (by simpa using hc2))]
  rw [dropWhile_cons_of_neg _ _ _ hc']
  rw [show (c' :: t'.reverse) = (t' ++ [c']).reverse by simp]
  rw [List.reverse_reverse]

theorem startsWithChars_of_append (p rest : List Char) :
    startsWithChars p (p ++ rest) = true := by
  induction p with
  | nil => rfl
  | cons c p ih => simp [startsWithChars, ih]

theorem startsWithChars_false_of_head (a b : Char) (ps s : List Char)
    (h : ¬ a = b) : startsWithChars (a :: ps) (b :: s) = false := by
  simp [startsWithChars, h]

/-- Slicing `[a : length - b]` out of `pre ++ mid ++ suf` with `|pre| = a`,
`|suf| = b` returns `mid`. -/
theorem slice_middle (pre mid suf : List Char) :
    (((pre ++ mid ++ suf).take ((pre ++ mid ++ suf).length - suf.length)).drop
      pre.length) = mid := by
  have hlen : (pre ++ mid ++ suf).length - suf.length = (pre ++ mid).length := by
    simp [List.length_append]
    omega
  rw [hlen]
  rw [show pre ++ mid ++ suf = (pre ++ mid) ++ suf from by simp]
  rw [List.take_left]
  rw [List.drop_left]

theorem ws_ne_j {c : Char} (h : isJsonWs c = true) : ¬ c = 'j' := by
  have h' : c = ' ' ∨ c = '\t' ∨ c = '\n' ∨ c = '\r' := by
    simpa [isJsonWs, Bool.or_eq_true, decide_eq_true_eq, or_assoc] using h
  rcases h' with h' | h' | h' | h' <;> subst h' <;> decide

theorem pyWs_of_jsonWs {c : Char} (h : isJsonWs c = true) : isPyWs c = true := by
  simp [isPyWs, h]

theorem extract_of_strip (cs s : List Char) (hstrip : pyStrip cs = s)
    (h1 : startsWithChars ("```json".data) s = false)
    (h2 : startsWithChars ("```".data) s = false) :
    extract_json_str cs = s := by
  rw [extract_json_str]
  simp only [hstrip, h1, h2, Bool.false_eq_true, if_false]

theorem extract_of_strip_json (cs s : List Char)
    (hstrip : pyStrip cs = "```json".data ++ s ++ "```".data) :
    extract_json_str cs = s := by
  rw [extract_json_str]
  simp only [hstrip]
  have hsw : startsWithChars ("```json".data)
      ("```json".data ++ s ++ "```".data) = true := by
    rw [List.append_assoc]
    exact startsWithChars_of_append _ _
  simp only [hsw, if_true]
  exact slice_middle ("```json".data) s ("```".data)

theorem extract_of_strip_plain (cs s : List Char)
    (hstrip : pyStrip cs = "```".data ++ s ++ "```".data)
    (hbody : ∃ c t, s = c :: t ∧ ¬ c = 'j') :
    extract_json_str cs = s := by
  obtain ⟨c4, t4, hb, hcj⟩ := hbody
  rw [extract_json_str]
  simp only [hstrip]
  have hsw1 : startsWithChars ("```json".data)
      ("```".data ++ s ++ "```".data) = false := by
    rw [show ("```".data ++ s ++ "```".data : List Char) =
        '`' :: '`' :: '`' :: (s ++ "```".data) from by
      rw [show ("```".data : List Char) = ['`', '`', '`'] from rfl]
      simp]
    rw [hb, List.cons_append]
    show startsWithChars ('`' :: '`' :: '`' :: 'j' :: "son".data) _ = false
    simp only [startsWithChars, Bool.and_eq_false_iff]
    right
    right
    right
    left
    exact decide_eq_false (fun h => hcj h.symm)
  have hsw2 : startsWithChars ("```".data)
      ("```".data ++ s ++ "```".data) = true := by
    rw [List.append_assoc]
    exact startsWithChars_of_append _ _
  simp only [hsw1, hsw2, Bool.false_eq_true, if_false, if_true]
  exact slice_middle ("```".data) s ("```".data)

/-- The fence-free case of the extraction step: surrounding whitespace is
stripped and no fence slicing happens. -/
theorem extract_bare (j : Json) (w1 w2 : List Char)
    (hw1 : ∀ c ∈ w1, isPyWs c = true) (hw2 : ∀ c ∈ w2, isPyWs c = true) :
    extract_json_str (w1 ++ dumpsChars j ++ w2) = dumpsChars j := by
  obtain ⟨c, t, ht, _, hpw, hbt, _, _⟩ := dumps_head j
  obtain ⟨t', c', ht', hpw'⟩ := dumps_last j
  have hstrip : pyStrip (w1 ++ dumpsChars j ++ w2) = dumpsChars j :=
    pyStrip_eq _ _ _ hw1 hw2 ⟨c, t, ht, hpw⟩ ⟨t', c', ht', hpw'⟩
  refine extract_of_strip _ _ hstrip ?_ ?_
  · rw [ht]
    exact startsWithChars_false_of_head '`' c _ _ (fun h => hbt h.symm)
  · rw [ht]
    exact startsWithChars_false_of_head '`' c _ _ (fun h => hbt h.symm)

/-- The ```json fenced case of the extraction step: the slice `[7:-3]`
returns exactly the fenced body. -/
theorem extract_json_fence (body w1 w2 : List Char)
    (hw1 : ∀ c ∈ w1, isPyWs c = true) (hw2 : ∀ c ∈ w2, isPyWs c = true) :
    extract_json_str (w1 ++ ("```json".data ++ body ++ "```".data) ++ w2) = body := by
  have hstrip : pyStrip (w1 ++ ("```json".data ++ body ++ "```".data) ++ w2) =
      "```json".data ++ body ++ "```".data := by
    refine pyStrip_eq _ _ _ hw1 hw2
      ⟨'`', "``json".data ++ body ++ "```".data, rfl, by decide⟩
      ⟨"```json".data ++ body ++ ['`', '`'], '`', ?_, by decide⟩
    rw [show ("```".data : List Char) = ['`', '`'] ++ ['`'] from rfl]
    simp
  exact extract_of_strip_json _ _ hstrip

/-- The plain ``` fenced case of the extraction step: the slice `[3:-3]`
returns exactly the fenced body, provided that body does not begin with the
letter `j` (otherwise the marker would read as a ```json fence). -/
theorem extract_plain_fence (body w1 w2 : List Char)
    (hw1 : ∀ c ∈ w1, isPyWs c = true) (hw2 : ∀ c ∈ w2, isPyWs c = true)
    (hbody : ∃ c t, body = c :: t ∧ ¬ c = 'j') :
    extract_json_str (w1 ++ ("```".data ++ body ++ "```".data) ++ w2) = body := by
  have hstrip : pyStrip (w1 ++ ("```".data ++ body ++ "```".data) ++ w2) =
      "```".data ++ body ++ "```".data := by
    refine pyStrip_eq _ _ _ hw1 hw2
      ⟨'`', "``".data ++ body ++ "```".data, rfl, by decide⟩
      ⟨"```".data ++ body ++ ['`', '`'], '`', ?_, by decide⟩
    rw [show ("```".data : List Char) = ['`', '`'] ++ ['`'] from rfl]
    simp
  exact extract_of_strip_plain _ _ hstrip hbody

/-! ## Lookup invariance lemmas for the validator -/

theorem all_congr_mem {α : Type} (l : List α) (f g : α → Bool)
    (h : ∀ x ∈ l, f x = g x) : l.all f = l.all g := by
  induction l with
  | nil => rfl
  | cons a l ih =>
    simp only [List.all_cons, h a (by simp)]
    rw [ih (fun x hx => h x (by simp [hx]))]

theorem pyLookup_insert (p1 p2 : List (String × Json)) (k0 : String) (v0 : Json)
    (k : String) (h : ¬ k0 = k) :
    pyLookup (p1 ++ (k0, v0) :: p2) k = pyLookup (p1 ++ p2) k := by
  induction p1 with
  | nil =>
    cases hp : pyLookup p2 k with
    | none => simp [pyLookup, hp, h]
    | some r => simp [pyLookup, hp]
  | cons a p1 ih =>
    obtain ⟨ka, va⟩ := a
    simp only [List.cons_append, pyLookup, List.append_eq, ih]

theorem pyLookup_perm (p q : List (String × Json)) (hperm : p.Perm q)
    (hnd : (p.map Prod.fst).Nodup) (k : String) :
    pyLookup p k = pyLookup q k := by
  induction hperm with
  | nil => rfl
  | cons a h ih =>
    obtain ⟨ka, va⟩ := a
    simp only [List.map_cons, List.nodup_cons] at hnd
    simp only [pyLookup, ih hnd.2]
  | swap a b l =>
    obtain ⟨ka, va⟩ := a
    obtain ⟨kb, vb⟩ := b
    have hne : ¬ kb = ka := by
      intro he
      subst he
      simp only [List.map_cons, List.nodup_cons] at hnd
      exact hnd.1 (List.mem_cons_self _ _)
    show (match pyLookup ((ka, va) :: l) k with
      | some r => some r
      | none => if kb = k then some vb else none) =
      (match pyLookup ((kb, vb) :: l) k with
      | some r => some r
      | none => if ka = k then some va else none)
    cases hp : pyLookup l k with
    | some r => simp [pyLookup, hp]
    | none =>
      by_cases hka : ka = k
      · by_cases hkb : kb = k
        · exact absurd (hkb.trans hka.symm) hne
        · simp [pyLookup, hp, hka, hkb]
      · by_cases hkb : kb = k
        · simp [pyLookup, hp, hka, hkb]
        · simp [pyLookup, hp, hka, hkb]
  | trans h1 h2 ih1 ih2 =>
    rw [ih1 hnd, ih2 ((h1.map Prod.fst).nodup_iff.mp hnd)]

theorem validateFields_insert (specs : List FieldSpec)
    (p1 p2 : List (String × Json)) (k : String) (v : Json)
    (hk : ∀ sp ∈ specs, ¬ sp.name = k) :
    validateFields specs (p1 ++ (k, v) :: p2) = validateFields specs (p1 ++ p2) := by
  unfold validateFields
  apply all_congr_mem
  intro sp hsp
  unfold checkField
  rw [pyLookup_insert p1 p2 k v sp.name (fun he => hk sp hsp he.symm)]

theorem validateFields_perm (specs : List FieldSpec)
    (p q : List (String × Json)) (hperm : p.Perm q)
    (hnd : (p.map Prod.fst).Nodup) :
    validateFields specs p = validateFields specs q := by
  unfold validateFields
  apply all_congr_mem
  intro sp _
  unfold checkField
  rw [pyLookup_perm p q hperm hnd sp.name]

/-- C1, counterexample: `retrieve_documents` neither drops entries whose
score is below `MIN_SIMILARITY_SCORE` (the returned scores include 0, which
is below the threshold 3/10) nor truncates to `k` entries (for `k = 1` it
returns 2 entries), refuting the claim as stated. -/
theorem c1_counterexample :
    (retrieve_documents c1Store "q" 1).map (·.score) = [0, 1] ∧
    (0 : ℚ) < MIN_SIMILARITY_SCORE ∧
    ¬ ((∀ d ∈ retrieve_documents c1Store "q" 1, MIN_SIMILARITY_SCORE ≤ d.score) ∧
      (retrieve_documents c1Store "q" 1).length ≤ 1) := by
  refine ⟨rfl, by norm_num [MIN_SIMILARITY_SCORE], ?_⟩
  rintro ⟨-, hlen⟩
  have h2 : (retrieve_documents c1Store "q" 1).length = 2 := rfl
  omega

/-- C1, amended: when the capability's similarity search succeeds,
`retrieve_documents` returns exactly its hits mapped to the result-dict
shape, in order — no threshold filtering and no truncation happen; `k` is
only forwarded to the capability. -/
theorem c1_retrieve_is_identity
    (store : String → Nat → Except Unit (List SearchHit)) (query : String)
    (k : Nat) (hits : List SearchHit) (h : store query k = .ok hits) :
    retrieve_documents store query k =
      hits.map (fun hit => ⟨hit.content, hit.source?, hit.score⟩) ∧
    (retrieve_documents store query k).length = hits.length ∧
    (retrieve_documents store query k).map (·.score) = hits.map (·.score) := by
  have h0 : retrieve_documents store query k =
      hits.map (fun hit => ⟨hit.content, hit.source?, hit.score⟩) := by
    rw [retrieve_documents, h]
  refine ⟨h0, by rw [h0]; simp, by rw [h0]; simp⟩

/-- C1, witness for the amended theorem at a concrete capability. -/
theorem c1_witness :
    c1Store "q" 1 = .ok [⟨"low", none, 0⟩, ⟨"hi", none, 1⟩] ∧
    retrieve_documents c1Store "q" 1 = [⟨"low", none, 0⟩, ⟨"hi", none, 1⟩] :=
  ⟨rfl, by
    have := (c1_retrieve_is_identity c1Store "q" 1
      [⟨"low", none, 0⟩, ⟨"hi", none, 1⟩] rfl).1
    simpa using this⟩

/-- C2, counterexample: a request with the unregistered schema name
`"bogus"` does not fail fast — `run_rag` returns normally, with the
`ValueError` message captured as the per-request `error` field of the
ResultRecord, refuting the claim as stated. -/
theorem c2_counterexample :
    (run_rag none (fun _ => .ok "x") "q" "bogus" true 5).error =
      some (unknownSchemaMsg "bogus") ∧
    (run_rag none (fun _ => .ok "x") "q" "bogus" true 5).result = none ∧
    (run_rag none (fun _ => .ok "x") "q" "bogus" true 5).valid_output = false :=
  ⟨rfl, rfl, rfl⟩

/-- C2, amended: for every unregistered schema name, `get_prompt_template`
raises `ValueError` inside the pipeline's `try`, and both `run_rag` and
`run_direct` capture it as the returned record's `error` string (with
`result = None` and `valid_output = False`) instead of aborting before the
request runs. -/
theorem c2_unknown_schema_captured
    (store : Option (String → Nat → Except Unit (List SearchHit)))
    (llm : String → Except String String) (q s : String) (k : Nat)
    (input : Option Json)
    (h : prompt_templates.find? (fun kv => kv.1 = s) = none) :
    ((run_rag store llm q s true k).error = some (unknownSchemaMsg s) ∧
     (run_rag store llm q s true k).result = none ∧
     (run_rag store llm q s true k).valid_output = false) ∧
    ((run_direct llm q s input).error = some (unknownSchemaMsg s) ∧
     (run_direct llm q s input).result = none ∧
     (run_direct llm q s input).valid_output = false) := by
  have hg : get_prompt_template s = .error (unknownSchemaMsg s) := by
    rw [get_prompt_template, h]
  constructor
  · cases store with
    | none => simp [run_rag, hg]
    | some vs => simp [run_rag, hg]
  · simp [run_direct, hg]

/-- C2, witness for the amended theorem at the concrete name `"bogus"`. -/
theorem c2_witness :
    prompt_templates.find? (fun kv => kv.1 = "bogus") = none ∧
    (run_rag none (fun _ => .ok "x") "q2" "bogus" true 5).error =
      some (unknownSchemaMsg "bogus") :=
  ⟨rfl, (c2_unknown_schema_captured none (fun _ => .ok "x") "q2" "bogus" 5 none
    rfl).1.1⟩

/-- C3: round-trip of the response parser.  Serializing any modelled JSON
value — bare, inside a ```json fence, or inside a plain ``` fence, with
optional whitespace around the fence and around the body — and applying the
agent's parsing step (strip, fence-slice, strict decode) returns the value
unchanged. -/
theorem c3_parser_roundtrip (j : Json) (w1 w2 m1 m2 : List Char)
    (hw1 : ∀ c ∈ w1, isPyWs c = true) (hw2 : ∀ c ∈ w2, isPyWs c = true)
    (hm1 : ∀ c ∈ m1, isJsonWs c = true) (hm2 : ∀ c ∈ m2, isJsonWs c = true) :
    parse_llm_chars (w1 ++ dumpsChars j ++ w2) = some j ∧
    parse_llm_chars (w1 ++ ("```json".data ++ (m1 ++ dumpsChars j ++ m2) ++
      "```".data) ++ w2) = some j ∧
    parse_llm_chars (w1 ++ ("```".data ++ (m1 ++ dumpsChars j ++ m2) ++
      "```".data) ++ w2) = some j := by
  refine ⟨?_, ?_, ?_⟩
  · rw [parse_llm_chars, extract_bare j w1 w2 hw1 hw2]
    have := jsonLoads_dumps j [] [] (by simp) (by simp)
    simpa using this
  · rw [parse_llm_chars, extract_json_fence (m1 ++ dumpsChars j ++ m2) w1 w2 hw1 hw2]
    exact jsonLoads_dumps j m1 m2 hm1 hm2
  · have hbody : ∃ c t, m1 ++ dumpsChars j ++ m2 = c :: t ∧ ¬ c = 'j' := by
      cases m1 with
      | nil =>
        obtain ⟨c, t, ht, _, _, _, _, hcj⟩ := dumps_head j
        exact ⟨c, t ++ m2, by rw [ht]; simp, hcj⟩
      | cons c m1' =>
        exact ⟨c, m1' ++ dumpsChars j ++ m2, by simp,
          ws_ne_j (hm1 c (by simp))⟩
    rw [parse_llm_chars,
      extract_plain_fence (m1 ++ dumpsChars j ++ m2) w1 w2 hw1 hw2 hbody]
    exact jsonLoads_dumps j m1 m2 hm1 hm2

/-- C3, witness: the round trip at a concrete object and concrete
whitespace. -/
theorem c3_witness :
    ((∀ c ∈ [' '], isPyWs c = true) ∧ (∀ c ∈ ['\n'], isPyWs c = true) ∧
     (∀ c ∈ ['\n'], isJsonWs c = true) ∧ (∀ c ∈ [' '], isJsonWs c = true)) ∧
    (parse_llm_chars ([' '] ++ dumpsChars (Json.obj [("a", Json.num 1)]) ++ ['\n']) =
        some (Json.obj [("a", Json.num 1)]) ∧
      parse_llm_chars ([' '] ++ ("```json".data ++
        (['\n'] ++ dumpsChars (Json.obj [("a", Json.num 1)]) ++ [' ']) ++
        "```".data) ++ ['\n']) = some (Json.obj [("a", Json.num 1)]) ∧
      parse_llm_chars ([' '] ++ ("```".data ++
        (['\n'] ++ dumpsChars (Json.obj [("a", Json.num 1)]) ++ [' ']) ++
        "```".data) ++ ['\n']) = some (Json.obj [("a", Json.num 1)])) :=
  ⟨⟨by decide, by decide, by decide, by decide⟩,
    c3_parser_roundtrip (Json.obj [("a", Json.num 1)]) [' '] ['\n'] ['\n'] [' ']
      (by decide) (by decide) (by decide) (by decide)⟩

/-- C4: `validate_output` is a total boolean function — it returns the same
boolean on repeated calls with the same arguments (it is a pure function of
them), always returns a boolean rather than raising, and returns `false`
for every unregistered schema name. -/
theorem c4_validate_total (p : Json) (s : String) :
    (validate_output p s = validate_output p s) ∧
    (validate_output p s = true ∨ validate_output p s = false) ∧
    (s ∉ SCHEMA_NAMES → validate_output p s = false) := by
  refine ⟨rfl, ?_, ?_⟩
  · cases validate_output p s with
    | true => exact Or.inl rfl
    | false => exact Or.inr rfl
  · intro hs
    have hf : SCHEMA_MODELS.find? (fun kv => kv.1 = s) = none := by
      rw [List.find?_eq_none]
      intro kv hkv
      simp only [decide_eq_true_eq]
      intro he
      exact hs (by rw [← he]; exact List.mem_map_of_mem (·.1) hkv)
    have hl : lookupSpecs s = none := by
      rw [lookupSpecs, hf]
    rw [validate_output, hl]

/-- C4, witness: the unregistered name `"nope"` validates to `false`. -/
theorem c4_witness :
    "nope" ∉ SCHEMA_NAMES ∧ validate_output Json.null "nope" = false :=
  ⟨by decide, (c4_validate_total Json.null "nope").2.2 (by decide)⟩

/-- C7: the metric functions are total on empty input — `schema_pass_rate`
of the empty list is 0 and `latency_stats` of the empty list is the all-zero
record. -/
theorem c7_metrics_empty_total :
    schema_pass_rate [] = 0 ∧ latency_stats [] = ⟨0, 0, 0, 0⟩ :=
  ⟨rfl, rfl⟩

/-- C8: for every document, the chunk sequence produced by
`chunk_documents` carries `chunk_index` values that are exactly
`0, 1, 2, …` (strictly increasing from 0), each chunk id is the
deterministic string `"<document_id>_<chunk_index>"`, and a second run on
identical input produces identical chunks (the embedding is a pure
function, so repeated runs coincide definitionally). -/
theorem c8_chunk_ids (splitter : String → List String) (doc : RawDoc) :
    ((chunk_documents splitter [doc]).map (·.chunk_index) =
      List.range (splitter (doc.content?.getD "")).length) ∧
    ((chunk_documents splitter [doc]).map (·.chunk_index)).Pairwise (· < ·) ∧
    ((chunk_documents splitter [doc]).map (·.id) =
      (List.range (splitter (doc.content?.getD "")).length).map
        (fun i => (doc.id?.getD "unknown") ++ "_" ++ toString i)) ∧
    chunk_documents splitter [doc] = chunk_documents splitter [doc] := by
  have h1 : chunk_documents splitter [doc] =
      ((splitter (doc.content?.getD "")).enum).map (fun ic =>
        (⟨(doc.id?.getD "unknown") ++ "_" ++ toString ic.1,
          doc.source?.getD "unknown", ic.2, ic.1⟩ : Chunk)) := by
    simp [chunk_documents]
  have hidx : (chunk_documents splitter [doc]).map (·.chunk_index) =
      List.range (splitter (doc.content?.getD "")).length := by
    rw [h1, List.map_map]
    exact List.enum_map_fst _
  refine ⟨hidx, ?_, ?_, rfl⟩
  · rw [hidx]
    exact List.pairwise_lt_range _
  · rw [h1, List.map_map, show ((fun c => Chunk.id c) ∘ (fun ic =>
      (⟨(doc.id?.getD "unknown") ++ "_" ++ toString ic.1,
        doc.source?.getD "unknown", ic.2, ic.1⟩ : Chunk))) =
      ((fun i => (doc.id?.getD "unknown") ++ "_" ++ toString i) ∘ Prod.fst)
      from rfl]
    rw [← List.map_map, List.enum_map_fst]

/-- C5: when the model response parses as JSON but the payload fails schema
validation, both `run_rag` and `run_direct` return a record that retains
the parsed payload in `result`, has `valid_output = false`, and has a null
`error` field. -/
theorem c5_validation_failure_keeps_payload
    (store : Option (String → Nat → Except Unit (List SearchHit)))
    (q s : String) (k : Nat) (resp : String) (p : Json) (tpl : String)
    (input : Option Json)
    (htpl : get_prompt_template s = .ok tpl)
    (hparse : parse_llm_chars resp.data = some p)
    (hval : validate_output p s = false) :
    ((run_rag store (fun _ => .ok resp) q s true k).result = some p ∧
     (run_rag store (fun _ => .ok resp) q s true k).valid_output = false ∧
     (run_rag store (fun _ => .ok resp) q s true k).error = none) ∧
    ((run_direct (fun _ => .ok resp) q s input).result = some p ∧
     (run_direct (fun _ => .ok resp) q s input).valid_output = false ∧
     (run_direct (fun _ => .ok resp) q s input).error = none) := by
  constructor
  · cases store with
    | none => simp [run_rag, finish_rag, htpl, hparse, hval]
    | some vs => simp [run_rag, finish_rag, htpl, hparse, hval]
  · simp [run_direct, finish_direct, htpl, hparse, hval]

/-- C5, witness: a parsed-but-invalid payload for the `rag` schema. -/
theorem c5_witness :
    get_prompt_template "rag" = .ok rag_prompt ∧
    parse_llm_chars ("\x7b\"answer\": 1\x7d").data = some (Json.obj [("answer", Json.num 1)]) ∧
    validate_output (Json.obj [("answer", Json.num 1)]) "rag" = false ∧
    ((run_rag none (fun _ => .ok "\x7b\"answer\": 1\x7d") "q" "rag" true 5).result =
        some (Json.obj [("answer", Json.num 1)]) ∧
      (run_rag none (fun _ => .ok "\x7b\"answer\": 1\x7d") "q" "rag" true 5).valid_output = false ∧
      (run_rag none (fun _ => .ok "\x7b\"answer\": 1\x7d") "q" "rag" true 5).error = none) :=
  ⟨rfl, rfl, rfl,
    (c5_validation_failure_keeps_payload none "q" "rag" 5 "\x7b\"answer\": 1\x7d"
      (Json.obj [("answer", Json.num 1)]) rag_prompt none rfl rfl rfl).1⟩

/-- C6: a raising or empty-returning vector store degrades to "no context"
and never aborts: `retrieve_documents` absorbs the exception into the empty
list, `run_rag` behaves exactly as with no store at all, and the generation
capability is still invoked, with the prompt containing only the template
and the query (no context section) — shown by a probe capability that
echoes its prompt into the record's error field. -/
theorem c6_retrieval_failure_degrades
    (llm : String → Except String String) (q s tpl : String) (k : Nat)
    (htpl : get_prompt_template s = .ok tpl) :
    retrieve_documents failingStore q k = [] ∧
    run_rag (some failingStore) llm q s true k = run_rag none llm q s true k ∧
    run_rag (some emptyStore) llm q s true k = run_rag none llm q s true k ∧
    (run_rag (some failingStore) (fun prompt => .error ("GEN:" ++ prompt))
      q s true k).error = some ("GEN:" ++ (tpl ++ "\n\nQUERY: " ++ q)) := by
  refine ⟨rfl, rfl, rfl, ?_⟩
  have hempty : ("\n".intercalate ([] : List String)) = "" := rfl
  simp [run_rag, finish_rag, htpl, failingStore, retrieve_documents, hempty]

/-- C6, witness at the `rag` schema. -/
theorem c6_witness :
    get_prompt_template "rag" = .ok rag_prompt ∧
    retrieve_documents failingStore "q" 5 = [] ∧
    run_rag (some failingStore) (fun _ => .ok "x") "q" "rag" true 5 =
      run_rag none (fun _ => .ok "x") "q" "rag" true 5 :=
  ⟨rfl,
    (c6_retrieval_failure_degrades (fun _ => .ok "x") "q" "rag" rag_prompt 5 rfl).1,
    (c6_retrieval_failure_degrades (fun _ => .ok "x") "q" "rag" rag_prompt 5 rfl).2.1⟩

/-- C9: the validator is agnostic to field order and tolerates extra
unknown fields — inserting a binding whose key is not a declared field of
the schema anywhere into a validating payload keeps it validating, and any
reordering (permutation) of a duplicate-free payload keeps it validating. -/
theorem c9_validator_tolerant (s : String) (p : List (String × Json))
    (hval : validate_output (.obj p) s = true) :
    (∀ (k : String) (v : Json) (p1 p2 : List (String × Json)),
      p = p1 ++ p2 → k ∉ schemaFieldNames s →
      validate_output (.obj (p1 ++ (k, v) :: p2)) s = true) ∧
    (∀ q : List (String × Json), p.Perm q → (p.map Prod.fst).Nodup →
      validate_output (.obj q) s = true) := by
  cases hl : lookupSpecs s with
  | none =>
    rw [validate_output, hl] at hval
    exact absurd hval (by simp)
  | some specs =>
    rw [validate_output, hl] at hval
    have hval' : validateFields specs p = true := hval
    constructor
    · intro k v p1 p2 hp hk
      subst hp
      rw [validate_output, hl]
      show validateFields specs (p1 ++ (k, v) :: p2) = true
      rw [validateFields_insert specs p1 p2 k v ?_]
      · exact hval'
      · intro sp hsp he
        refine hk ?_
        rw [← he]
        rw [schemaFieldNames, hl]
        exact List.mem_map_of_mem (·.name) hsp
    · intro q hperm hnd
      rw [validate_output, hl]
      show validateFields specs q = true
      rw [← validateFields_perm specs p q hperm hnd]
      exact hval'

/-- C9, witness: appending an extra field and reversing the field order
both keep the spec's example `rag` payload valid. -/
theorem c9_witness :
    validate_output (.obj ragPayload) "rag" = true ∧
    "extra_note" ∉ schemaFieldNames "rag" ∧
    validate_output (.obj (ragPayload ++ [("extra_note", Json.num 7)])) "rag" = true ∧
    validate_output (.obj ragPayload.reverse) "rag" = true := by
  refine ⟨by decide, by decide, ?_, ?_⟩
  · exact (c9_validator_tolerant "rag" ragPayload (by decide)).1 "extra_note"
      (Json.num 7) ragPayload [] (by simp) (by decide)
  · exact (c9_validator_tolerant "rag" ragPayload (by decide)).2 ragPayload.reverse
      (List.reverse_perm ragPayload).symm (by decide)

theorem finish_rag_valid (query schema_type mode : String)
    (cu : List CtxEntry) (lr : Except String String) :
    (finish_rag query schema_type mode cu lr).valid_output = true →
    (finish_rag query schema_type mode cu lr).result.isSome = true ∧
    (finish_rag query schema_type mode cu lr).error = none := by
  cases lr with
  | error e => simp [finish_rag]
  | ok resp =>
    cases hp : parse_llm_chars resp.data with
    | some p => simp [finish_rag, hp]
    | none => simp [finish_rag, hp]

theorem finish_direct_valid (query schema_type : String)
    (lr : Except String String) :
    (finish_direct query schema_type lr).valid_output = true →
    (finish_direct query schema_type lr).result.isSome = true ∧
    (finish_direct query schema_type lr).error = none := by
  cases lr with
  | error e => simp [finish_direct]
  | ok resp =>
    cases hp : parse_llm_chars resp.data with
    | some p => simp [finish_direct, hp]
    | none => simp [finish_direct, hp]

/-- C10: implicit record invariant — whenever a record returned by
`run_rag` or `run_direct` has `valid_output = true`, its `result` payload is
present and its `error` field is null. -/
theorem c10_valid_record_invariant
    (store : Option (String → Nat → Except Unit (List SearchHit)))
    (llm : String → Except String String) (q s : String) (u : Bool) (k : Nat)
    (input : Option Json) :
    ((run_rag store llm q s u k).valid_output = true →
      (run_rag store llm q s u k).result.isSome = true ∧
      (run_rag store llm q s u k).error = none) ∧
    ((run_direct llm q s input).valid_output = true →
      (run_direct llm q s input).result.isSome = true ∧
      (run_direct llm q s input).error = none) := by
  constructor
  · unfold run_rag
    repeat' split
    all_goals first
      | exact finish_rag_valid _ _ _ _ _
      | simp
  · unfold run_direct
    repeat' split
    all_goals first
      | exact finish_direct_valid _ _ _
      | simp

/-- C10, witness: a request whose record is marked valid indeed carries a
payload and no error. -/
theorem c10_witness :
    (run_rag none (fun _ =>
      .ok "\x7b\"answer\": \"a\", \"confidence\": \"high\", \"answer_type\": \"direct\"\x7d")
      "q" "qna" true 5).valid_output = true ∧
    ((run_rag none (fun _ =>
      .ok "\x7b\"answer\": \"a\", \"confidence\": \"high\", \"answer_type\": \"direct\"\x7d")
      "q" "qna" true 5).result.isSome = true ∧
    (run_rag none (fun _ =>
      .ok "\x7b\"answer\": \"a\", \"confidence\": \"high\", \"answer_type\": \"direct\"\x7d")
      "q" "qna" true 5).error = none) :=
  ⟨by decide,
    (c10_valid_record_invariant none (fun _ =>
      .ok "\x7b\"answer\": \"a\", \"confidence\": \"high\", \"answer_type\": \"direct\"\x7d")
      "q" "qna" true 5 none).1 (by decide)⟩
